import Mathlib

/-!
Verification of the invoice field-extraction engine (`extractor.py`) and its
derived-metric layer (`app.py`), shallowly embedded in Lean 4.

Strings are modelled as `String` / `List Char`; Python `int` is `Int`,
Python `float` results of the currency normalizer are `ℚ`; fallible
extraction returns `Option`.  The regular-expression searches of the source
are embedded as explicit scanning functions that reproduce the leftmost,
first-alternative, greedy-with-backtracking semantics of Python `re` for
the concrete patterns used by the source.
-/

namespace FaturaExtractor

/-! ### Character helpers (the fragments of Python semantics the source relies on) -/

/-- Python whitespace (`str.strip`, `\s`): space, tab, newline, CR, VT, FF. -/
def isSpacePy (c : Char) : Bool :=
  c == ' ' || c == '\t' || c == '\n' || c == '\r' || c == '\x0b' || c == '\x0c'

/-- Accented Latin letters appearing in the source's boilerplate / letter class
(uppercase and lowercase forms). -/
def isAccented (c : Char) : Bool :=
  c == 'Á' || c == 'É' || c == 'Í' || c == 'Ó' || c == 'Ú' ||
  c == 'Â' || c == 'Ê' || c == 'Ô' || c == 'Ã' || c == 'Õ' || c == 'Ç' ||
  c == 'á' || c == 'é' || c == 'í' || c == 'ó' || c == 'ú' ||
  c == 'â' || c == 'ê' || c == 'ô' || c == 'ã' || c == 'õ' || c == 'ç'

/-- The fragment of Python `str.upper` needed by the source: ASCII letters and
the Portuguese accented letters; every other character is left unchanged. -/
def toUpperPy (c : Char) : Char :=
  if c == 'á' then 'Á' else if c == 'é' then 'É' else if c == 'í' then 'Í'
  else if c == 'ó' then 'Ó' else if c == 'ú' then 'Ú' else if c == 'â' then 'Â'
  else if c == 'ê' then 'Ê' else if c == 'ô' then 'Ô' else if c == 'ã' then 'Ã'
  else if c == 'õ' then 'Õ' else if c == 'ç' then 'Ç' else c.toUpper

/-- The fragment of Python's regex word-character class `\w` (used by `\b`)
relevant to the source: ASCII alphanumerics, underscore, accented letters. -/
def isWordChar (c : Char) : Bool :=
  c.isAlphanum || c == '_' || isAccented c

/-- `\b` at a position whose preceding character is `prev` (`none` = start of
string), for a pattern that begins with a word character. -/
def boundaryOk (prev : Option Char) : Bool :=
  match prev with
  | none => true
  | some c => !(isWordChar c)

/-! ### List-of-characters helpers -/

/-- Python `str.strip()`: drop whitespace from both ends. -/
def pyStrip (cs : List Char) : List Char :=
  ((cs.dropWhile isSpacePy).reverse.dropWhile isSpacePy).reverse

/-- Substring containment, as Python's `needle in haystack`. -/
def containsSub (needle : List Char) : List Char → Bool
  | [] => needle.isEmpty
  | c :: rest => startsWithSub needle (c :: rest) || containsSub needle rest
where
  /-- `needle` is a prefix of the haystack. -/
  startsWithSub : List Char → List Char → Bool
  | [], _ => true
  | _ :: _, [] => false
  | n :: ns, c :: cs => n == c && startsWithSub ns cs

/-- Case-insensitive literal match of `pat` against a prefix of the text;
returns the last actually-matched text character together with the rest of
the text.  This embeds the `re.IGNORECASE` literal-label part of the
source's patterns. -/
def caselessStripT : List Char → Option Char → List Char → Option (Option Char × List Char)
  | [], last, cs => some (last, cs)
  | _ :: _, _, [] => none
  | p :: ps, _, c :: cs =>
    if toUpperPy c == toUpperPy p then caselessStripT ps (some c) cs else none

/-- The last character of `a`, or `prev` when `a` is empty: the character
preceding the text position reached after consuming `a`. -/
def lastOr (prev : Option Char) : List Char → Option Char
  | [] => prev
  | c :: rest => lastOr (some c) rest

/-! ### `clean_spaces` (source lines 21–22) -/

/-- One pass of `re.sub(r"[ \t]+", " ", s)`: each maximal run of spaces/tabs
becomes a single space.  `inRun` records whether the previous character was
part of such a run. -/
def collapseAux : Bool → List Char → List Char
  | _, [] => []
  | inRun, c :: rest =>
    if c == ' ' || c == '\t' then
      if inRun then collapseAux true rest else ' ' :: collapseAux true rest
    else c :: collapseAux false rest

/-- `clean_spaces` of the source: collapse horizontal whitespace runs, strip. -/
def clean_spaces (s : String) : String :=
  ⟨pyStrip (collapseAux false s.data)⟩

/-- Python `str.splitlines` restricted to `\n` separators (the only line
separator occurring in the collaborator-supplied text). -/
def splitOnNl : List Char → List (List Char)
  | [] => [[]]
  | c :: rest =>
    let r := splitOnNl rest
    if c == '\n' then [] :: r
    else
      match r with
      | h :: t => (c :: h) :: t
      | [] => [[c]]

/-! ### `normalize_kwh` (source lines 24–40) -/

/-- Value of a string of ASCII digits, as Python `int`. -/
def digitsToInt (ds : List Char) : Int :=
  ds.foldl (fun a c => 10 * a + ((c.toNat : Int) - 48)) 0

/-- `normalize_kwh` on the character list: strip ends, remove spaces, cut at
the first decimal comma, remove periods, remove remaining non-digits, parse. -/
def normalize_kwh_list (raw : List Char) : Option Int :=
  if raw = [] then none
  else
    let s1 := (pyStrip raw).filter (fun c => c ≠ ' ')
    let s2 := if s1.contains ',' then s1.takeWhile (fun c => c ≠ ',') else s1
    let s3 := s2.filter (fun c => c ≠ '.')
    let s4 := s3.filter (fun c => c.isDigit)
    if s4 = [] then none else some (digitsToInt s4)

/-- `normalize_kwh` of the source. -/
def normalize_kwh (raw : String) : Option Int :=
  normalize_kwh_list raw.data

/-- Python `int()` on the digit-only strings reachable in `normalize_kwh`:
succeeds exactly on a non-empty all-digit string (the source never hands it
a sign or separator, those were already filtered out). -/
def pyIntParse (s : List Char) : Option Int :=
  if s ≠ [] ∧ s.all Char.isDigit then some (digitsToInt s) else none

/-- `normalize_kwh` with the possible `int()` `ValueError` made explicit:
`Except` is the raised-exception channel (the source has no try/except
here, so an error would propagate to the caller). -/
def normalize_kwh_run (raw : String) : Except Unit (Option Int) :=
  if raw.data = [] then .ok none
  else
    let s1 := (pyStrip raw.data).filter (fun c => c ≠ ' ')
    let s2 := if s1.contains ',' then s1.takeWhile (fun c => c ≠ ',') else s1
    let s3 := s2.filter (fun c => c ≠ '.')
    let s4 := s3.filter (fun c => c.isDigit)
    if s4 = [] then .ok none
    else
      match pyIntParse s4 with
      | some n => .ok (some n)
      | none => .error ()

/-! ### `normalize_brl` (source lines 42–61) -/

/-- Python `s.replace("R$", "")`: delete every occurrence of the two-character
substring. -/
def removeRS : List Char → List Char
  | 'R' :: '$' :: rest => removeRS rest
  | c :: rest => c :: removeRS rest
  | [] => []

/-- Python `float()` on the strings reachable in `normalize_brl` (digits and
periods only, after the comma→period swap): at most one period and at least
one digit.  `none` models the raised `ValueError`. -/
def pyFloatParse (s : List Char) : Option ℚ :=
  if s.all (fun c => c.isDigit || c == '.') ∧ s.count '.' ≤ 1 ∧ s.any Char.isDigit then
    let intPart := s.takeWhile (fun c => c ≠ '.')
    let fracPart := (s.dropWhile (fun c => c ≠ '.')).drop 1
    let den : Nat := 10 ^ fracPart.length
    some (mkRat (digitsToInt intPart * (den : Int) + digitsToInt fracPart) den)
  else none

/-- `normalize_brl` of the source: strip the currency marker and spaces, keep
only digits/periods/commas, drop thousands periods, comma becomes decimal
point, parse (parse failure is caught and yields `none`). -/
def normalize_brl (raw : String) : Option ℚ :=
  if raw.data = [] then none
  else
    let s1 := pyStrip ((removeRS raw.data).filter (fun c => c ≠ ' '))
    let s2 := s1.filter (fun c => c.isDigit || c == '.' || c == ',')
    if s2 = [] then none
    else
      let s3 := (s2.filter (fun c => c ≠ '.')).map (fun c => if c == ',' then '.' else c)
      match pyFloatParse s3 with
      | some q => some q
      | none => none

/-- `normalize_brl` with the exception channel explicit: the `float()` call
sits inside `try/except ValueError`, whose handler returns `None`. -/
def normalize_brl_run (raw : String) : Except Unit (Option ℚ) :=
  if raw.data = [] then .ok none
  else
    let s1 := pyStrip ((removeRS raw.data).filter (fun c => c ≠ ' '))
    let s2 := s1.filter (fun c => c.isDigit || c == '.' || c == ',')
    if s2 = [] then .ok none
    else
      let s3 := (s2.filter (fun c => c ≠ '.')).map (fun c => if c == ',' then '.' else c)
      match pyFloatParse s3 with
      | some q => .ok (some q)
      | none => .ok none

/-! ### `RE_DATE` and the date recognizers (source lines 8, 67–81, 122–127) -/

/-- `RE_DATE = \b\d{2}/\d{2}/\d{4}\b` matched at the current position, with
`prev` the preceding character (`none` = start): returns the ten matched
characters and the rest of the text. -/
def dateAt (prev : Option Char) (cs : List Char) : Option (List Char × List Char) :=
  match cs with
  | d1 :: d2 :: '/' :: m1 :: m2 :: '/' :: y1 :: y2 :: y3 :: y4 :: rest =>
    if boundaryOk prev && d1.isDigit && d2.isDigit && m1.isDigit && m2.isDigit &&
        y1.isDigit && y2.isDigit && y3.isDigit && y4.isDigit &&
        (match rest with | [] => true | c :: _ => !(isWordChar c)) then
      some ([d1, d2, '/', m1, m2, '/', y1, y2, y3, y4], rest)
    else none
  | _ => none

/-- `re.search(RE_DATE, ·)`: leftmost date occurrence. -/
def findDate (prev : Option Char) : List Char → Option (List Char)
  | [] => none
  | c :: rest =>
    match dateAt prev (c :: rest) with
    | some (d, _) => some d
    | none => findDate (some c) rest

/-- The `.*?(RE_DATE)` part of `extract_first_date_after`'s pattern: lazily
consume non-newline characters until a date (with its word boundaries)
matches; a newline stops the search (`.` does not match `\n`). -/
def scanDateSameLine (prev : Option Char) : List Char → Option (List Char)
  | [] => none
  | c :: rest =>
    match dateAt prev (c :: rest) with
    | some (d, _) => some d
    | none => if c == '\n' then none else scanDateSameLine (some c) rest

/-- `re.search(rf"{label}.*?({RE_DATE})", text, re.IGNORECASE)`: at each
position try the caseless label literal followed by a same-line date;
advance one character on failure (leftmost overall match). -/
def searchLabelDate (label : List Char) : List Char → Option (List Char)
  | [] => none
  | c :: rest =>
    match caselessStripT label none (c :: rest) with
    | some (last, r) =>
      match scanDateSameLine last r with
      | some d => some d
      | none => searchLabelDate label rest
    | none => searchLabelDate label rest

/-- `extract_first_date_after` of the source. -/
def extract_first_date_after (label : String) (text_norm : String) : Option String :=
  (searchLabelDate label.data text_norm.data).map fun d => ⟨d⟩

/-- `extract_vencimento` of the source: label-anchored date after
"VENCIMENTO", else the first date anywhere. -/
def extract_vencimento (text_norm : String) : Option String :=
  match extract_first_date_after "VENCIMENTO" text_norm with
  | some v => some v
  | none => (findDate none text_norm.data).map fun d => ⟨d⟩

/-- The block pattern `({RE_DATE})\s+({RE_DATE})\s+\d+\s+({RE_DATE})` matched
at the current position: three dates separated by whitespace with an
interval count between the second and third. -/
def matchBlocoAt (prev : Option Char) (cs : List Char) : Option (List Char × List Char) :=
  match dateAt prev cs with
  | none => none
  | some (d1, r1) =>
    if (r1.takeWhile isSpacePy) = [] then none
    else
      match dateAt (some ' ') (r1.dropWhile isSpacePy) with
      | none => none
      | some (d2, r3) =>
        if (r3.takeWhile isSpacePy) = [] then none
        else
          let r4 := r3.dropWhile isSpacePy
          if (r4.takeWhile Char.isDigit) = [] then none
          else
            let r5 := r4.dropWhile Char.isDigit
            if (r5.takeWhile isSpacePy) = [] then none
            else
              match dateAt (some ' ') (r5.dropWhile isSpacePy) with
              | none => none
              | some (_, _) => some (d1, d2)

/-- Leftmost occurrence of the block pattern. -/
def searchBloco (prev : Option Char) : List Char → Option (List Char × List Char)
  | [] => none
  | c :: rest =>
    match matchBlocoAt prev (c :: rest) with
    | some p => some p
    | none => searchBloco (some c) rest

/-- `extract_leituras_por_bloco` of the source: first and second dates of the
leftmost reading-history block. -/
def extract_leituras_por_bloco (text_norm : String) : Option String × Option String :=
  match searchBloco none text_norm.data with
  | some (d1, d2) => (some ⟨d1⟩, some ⟨d2⟩)
  | none => (none, none)

/-! ### `RE_NUM_BR` and the kWh recognizers (source lines 19, 133–140, 170–188) -/

/-- Leading run of ASCII digits. -/
def takeDigits (cs : List Char) : List Char × List Char :=
  (cs.takeWhile Char.isDigit, cs.dropWhile Char.isDigit)

/-- Greedy `(\.\d{3})+`-style consumption: maximal run of `.ddd` groups. -/
def takeGroups : List Char → List Char × List Char
  | '.' :: a :: b :: c :: rest =>
    if a.isDigit && b.isDigit && c.isDigit then
      let (g, r) := takeGroups rest
      ('.' :: a :: b :: c :: g, r)
    else ([], '.' :: a :: b :: c :: rest)
  | cs => ([], cs)

/-- `RE_NUM_BR = (?:\d{1,3}(?:\.\d{3})+|\d+)(?:,\d{2})?` matched at the
current position (no word boundaries in this pattern).  The first
alternative can only succeed when the whole leading digit run has length
1–3 (a longer run leaves a digit where the group's period must be), so the
match is the run plus its maximal period groups, else the bare run; then
the optional two-digit decimal remainder. -/
def matchNumAt (cs : List Char) : Option (List Char × List Char) :=
  let (d, r1) := takeDigits cs
  if d = [] then none
  else
    let core :=
      if d.length ≤ 3 then
        match takeGroups r1 with
        | ([], _) => (d, r1)
        | (g, r2) => (d ++ g, r2)
      else (d, r1)
    match core with
    | (tok, ',' :: a :: b :: r) =>
      if a.isDigit && b.isDigit then some (tok ++ [',', a, b], r)
      else some (tok, ',' :: a :: b :: r)
    | (tok, r) => some (tok, r)

/-- `re.search(RE_NUM_BR, ·).group(0)`: leftmost numeric token. -/
def firstNumTokenFrom : List Char → Option (List Char)
  | [] => none
  | c :: rest =>
    match matchNumAt (c :: rest) with
    | some (tok, _) => some tok
    | none => firstNumTokenFrom rest

/-- `re.findall(RE_NUM_BR, ·)`: all non-overlapping numeric tokens, left to
right, resuming after each match (fuel = remaining length). -/
def findallNumAux : Nat → List Char → List (List Char)
  | 0, _ => []
  | _, [] => []
  | fuel + 1, c :: rest =>
    match matchNumAt (c :: rest) with
    | some (tok, r) => tok :: findallNumAux fuel r
    | none => findallNumAux fuel rest

/-- All `RE_NUM_BR` matches in a character list. -/
def findallNum (cs : List Char) : List (List Char) :=
  findallNumAux cs.length cs

/-- Characters admitted by the greedy captured tail `[0-9\.\,\s]*`. -/
def tailClass (c : Char) : Bool :=
  c.isDigit || c == '.' || c == ',' || isSpacePy c

/-- The `\s*[:.]*\s*([0-9][0-9\.\,\s]*)` part of the kWh label pattern,
applied to the text just after the label: skip whitespace, optional
colon/period separators, whitespace again; then require a digit and
capture the greedy digit/period/comma/whitespace tail.  (The three skips
are maximal runs: their character classes are disjoint from the digits the
pattern requires next, so backtracking never helps.) -/
def sepThenTail (cs : List Char) : Option (List Char) :=
  let r1 := cs.dropWhile isSpacePy
  let r2 := r1.dropWhile (fun c => c == ':' || c == '.')
  let r3 := r2.dropWhile isSpacePy
  match r3 with
  | c :: rest => if c.isDigit then some (c :: rest.takeWhile tailClass) else none
  | [] => none

/-- `re.search(rf"{label}\s*[:.]*\s*([0-9][0-9\.\,\s]*)", text, re.IGNORECASE)`:
leftmost label occurrence that is followed by a digit after the optional
separators; returns the captured tail. -/
def searchLabelNum (label : List Char) : List Char → Option (List Char)
  | [] => none
  | c :: rest =>
    match caselessStripT label none (c :: rest) with
    | some (_, r) =>
      match sepThenTail r with
      | some tail => some tail
      | none => searchLabelNum label rest
    | none => searchLabelNum label rest

/-- `extract_kwh_after_label` of the source: capture the greedy tail after the
label, strip internal spaces (only the space character, as Python
`replace(" ", "")`), then keep only the first well-formed numeric token and
normalize it. -/
def extract_kwh_after_label (full_text : String) (label : String) : Option Int :=
  match searchLabelNum label.data full_text.data with
  | none => none
  | some tail =>
    let tailNoSpaces := tail.filter (fun c => c ≠ ' ')
    match firstNumTokenFrom tailNoSpaces with
    | none => none
    | some tok => normalize_kwh_list tok

/-- `extract_consumo_kwh` of the source: first line carrying both tariff
markers whose numeric tokens are non-empty; take the last token. -/
def extract_consumo_kwh (lines : List (List Char)) : Option Int :=
  match lines with
  | [] => none
  | l :: rest =>
    let up := l.map toUpperPy
    if containsSub "ENERGIA ATIVA".data up && containsSub "UNICO".data up then
      match (findallNum l).getLast? with
      | some tok => normalize_kwh_list tok
      | none => extract_consumo_kwh rest
    else extract_consumo_kwh rest

/-! ### `RE_MONEY_BR` and the currency recognizers (source lines 12, 118–120, 146–164) -/

/-- `RE_MONEY_BR = \b\d{1,3}(?:\.\d{3})*,\d{2}\b|\b\d+,\d{2}\b` matched at the
current position.  In either alternative the digit run before the comma
must be consumed whole (a shorter take leaves a digit where `,` or `.` is
required), and after the maximal period groups the next character must be
the comma (a shorter group take leaves a period there). -/
def moneyAt (prev : Option Char) (cs : List Char) : Option (List Char × List Char) :=
  if !(boundaryOk prev) then none
  else
    let (d, r1) := takeDigits cs
    if d = [] then none
    else
      let alt1 :=
        if d.length ≤ 3 then
          let (g, r2) := takeGroups r1
          match r2 with
          | ',' :: a :: b :: r3 =>
            if a.isDigit && b.isDigit &&
                (match r3 with | [] => true | c :: _ => !(isWordChar c)) then
              some (d ++ g ++ [',', a, b], r3)
            else none
          | _ => none
        else none
      match alt1 with
      | some res => some res
      | none =>
        match r1 with
        | ',' :: a :: b :: r3 =>
          if a.isDigit && b.isDigit &&
              (match r3 with | [] => true | c :: _ => !(isWordChar c)) then
            some (d ++ [',', a, b], r3)
          else none
        | _ => none

/-- `re.search(RE_MONEY_BR, ·)`: leftmost currency token. -/
def searchMoney (prev : Option Char) : List Char → Option (List Char)
  | [] => none
  | c :: rest =>
    match moneyAt prev (c :: rest) with
    | some (tok, _) => some tok
    | none => searchMoney (some c) rest

/-- The `.{0,220}?(RE_MONEY_BR)` window of the `extract_custo_tusd_fio_b`
fallback: lazily consume up to 220 non-newline characters until a currency
token (with its leading word boundary) matches. -/
def scanMoneyWindow (prev : Option Char) : Nat → List Char → Option (List Char)
  | _, [] => none
  | budget, c :: rest =>
    match moneyAt prev (c :: rest) with
    | some (tok, _) => some tok
    | none =>
      match budget with
      | 0 => none
      | b + 1 => if c == '\n' then none else scanMoneyWindow (some c) b rest

/-- Caseless literal label with `\s+` gaps, e.g. `CUSTO\s+TUSD\s+FIO\s+B`:
match the words in order, each separated by at least one whitespace
character; returns the last matched character and the rest. -/
def matchWordsGaps : List (List Char) → Option Char → List Char → Option (Option Char × List Char)
  | [], last, cs => some (last, cs)
  | [w], last, cs => caselessStripT w last cs
  | w :: w' :: ws, last, cs =>
    match caselessStripT w last cs with
    | none => none
    | some (_, r) =>
      if (r.takeWhile isSpacePy) = [] then none
      else matchWordsGaps (w' :: ws) (some ' ') (r.dropWhile isSpacePy)

/-- Leftmost position where a words-with-`\s+`-gaps label matches and the
continuation `cont` then succeeds on the rest. -/
def searchWordsThen (words : List (List Char)) (cont : Option Char → List Char → Option (List Char)) :
    List Char → Option (List Char)
  | [] => none
  | c :: rest =>
    match matchWordsGaps words none (c :: rest) with
    | some (last, r) =>
      match cont last r with
      | some v => some v
      | none => searchWordsThen words cont rest
    | none => searchWordsThen words cont rest

/-- `extract_custo_tusd_fio_b` of the source: first pass over the non-empty
stripped lines looking for the literal label and the first currency token
on that line; second pass on the normalized blob with a 220-character lazy
window after the label. -/
def extract_custo_tusd_fio_b (full_text : String) : Option ℚ :=
  let lines := ((splitOnNl full_text.data).map pyStrip).filter (fun l => l ≠ [])
  match firstPass lines with
  | some q => some q
  | none =>
    let text_norm := clean_spaces full_text
    match searchWordsThen ["CUSTO".data, "TUSD".data, "FIO".data, "B".data]
        (fun last r => scanMoneyWindow last 220 r) text_norm.data with
    | some tok => normalize_brl ⟨tok⟩
    | none => none
where
  /-- The line loop of `extract_custo_tusd_fio_b`. -/
  firstPass : List (List Char) → Option ℚ
  | [] => none
  | l :: rest =>
    if containsSub "CUSTO TUSD FIO B".data (l.map toUpperPy) then
      match searchMoney none l with
      | some tok =>
        match normalize_brl ⟨tok⟩ with
        | some q => some q
        | none => none
      | none => firstPass rest
    else firstPass rest

/-- The `(R\$)?\s*([0-9\.\,]+)` part of the `TOTAL A PAGAR` pattern at a
fixed position: optional caseless `R$`, maximal whitespace, then a
non-empty greedy run of digits/periods/commas (group 2). -/
def totalValueAt (cs : List Char) : Option (List Char) :=
  let classChar := fun (c : Char) => c.isDigit || c == '.' || c == ','
  let withRS :=
    match cs with
    | c :: '$' :: r =>
      if toUpperPy c == 'R' then
        let r2 := r.dropWhile isSpacePy
        let run := r2.takeWhile classChar
        if run = [] then none else some run
      else none
    | _ => none
  match withRS with
  | some run => some run
  | none =>
    let r2 := cs.dropWhile isSpacePy
    let run := r2.takeWhile classChar
    if run = [] then none else some run

/-- The `.*?(R\$)?\s*([0-9\.\,]+)` scan after the `TOTAL A PAGAR` label:
lazily consume non-newline characters until the value part matches. -/
def scanTotalValue : List Char → Option (List Char)
  | [] => none
  | c :: rest =>
    match totalValueAt (c :: rest) with
    | some run => some run
    | none => if c == '\n' then none else scanTotalValue rest

/-- `extract_total_a_pagar` of the source. -/
def extract_total_a_pagar (text_norm : String) : Option ℚ :=
  match searchWordsThen ["TOTAL".data, "A".data, "PAGAR".data]
      (fun _ r => scanTotalValue r) text_norm.data with
  | some run => normalize_brl ⟨run⟩
  | none => none

/-! ### `RE_MES_ANO` and `extract_ref_mes_ano` (source lines 9, 114–116) -/

/-- The twelve month abbreviations of `RE_MES_ANO`. -/
def monthAbbrevs : List (List Char) :=
  ["JAN".data, "FEV".data, "MAR".data, "ABR".data, "MAI".data, "JUN".data,
   "JUL".data, "AGO".data, "SET".data, "OUT".data, "NOV".data, "DEZ".data]

/-- One month alternative matched caselessly at the current position. -/
def monthAt (alts : List (List Char)) (cs : List Char) : Option (List Char × List Char) :=
  match alts with
  | [] => none
  | m :: ms =>
    match caselessStripT m none cs with
    | some (_, r) => some (cs.take m.length, r)
    | none => monthAt ms cs

/-- `RE_MES_ANO = \b(?:JAN|…|DEZ)\s*/\s*\d{4}\b` matched at the current
position; returns the matched characters verbatim. -/
def mesAnoAt (prev : Option Char) (cs : List Char) : Option (List Char) :=
  if !(boundaryOk prev) then none
  else
    match monthAt monthAbbrevs cs with
    | none => none
    | some (mon, r1) =>
      let w1 := r1.takeWhile isSpacePy
      match r1.dropWhile isSpacePy with
      | '/' :: r2 =>
        let w2 := r2.takeWhile isSpacePy
        match r2.dropWhile isSpacePy with
        | y1 :: y2 :: y3 :: y4 :: rest =>
          if y1.isDigit && y2.isDigit && y3.isDigit && y4.isDigit &&
              (match rest with | [] => true | c :: _ => !(isWordChar c)) then
            some (mon ++ w1 ++ '/' :: w2 ++ [y1, y2, y3, y4])
          else none
        | _ => none
      | _ => none

/-- Leftmost `RE_MES_ANO` occurrence. -/
def searchMesAno (prev : Option Char) : List Char → Option (List Char)
  | [] => none
  | c :: rest =>
    match mesAnoAt prev (c :: rest) with
    | some tok => some tok
    | none => searchMesAno (some c) rest

/-- `extract_ref_mes_ano` of the source: uppercase the matched token and
delete its spaces (only the space character, as Python `replace`). -/
def extract_ref_mes_ano (text_norm : String) : Option String :=
  match searchMesAno none text_norm.data with
  | some tok => some ⟨(tok.map toUpperPy).filter (fun c => c ≠ ' ')⟩
  | none => none

/-! ### Customer name and code (source lines 87–108) -/

/-- One boilerplate marker occurs in the uppercased line. -/
def hasMarker (l : List Char) : Bool :=
  let up := l.map toUpperPy
  containsSub "NEOENERGIA".data up || containsSub "NOTA FISCAL".data up ||
  containsSub "CHAVE DE ACESSO".data up || containsSub "PAGUE COM O PIX".data up

/-- The qualifying test of the name loop: at least 12 characters and at least
one (accented) Latin letter in the uppercased line. -/
def nameQualifies (l : List Char) : Bool :=
  decide (12 ≤ l.length) &&
  (l.map toUpperPy).any (fun c => ('A' ≤ c && c ≤ 'Z') || isAccented c)

/-- The `for l in lines[:80]` loop of `extract_customer_name`. -/
def nameLoop : Nat → List (List Char) → Option (List Char)
  | 0, _ => none
  | _, [] => none
  | fuel + 1, l :: rest =>
    if hasMarker l then nameLoop fuel rest
    else if nameQualifies l then some (pyStrip l)
    else nameLoop fuel rest

/-- `extract_customer_name` of the source. -/
def extract_customer_name (lines : List (List Char)) : Option (List Char) :=
  match nameLoop 80 lines with
  | some l => some l
  | none =>
    match lines with
    | [] => none
    | l :: _ => some (pyStrip l)

/-- The customer-code pattern
`\b\d{1,3}(?:\.\d{3})*-\d\b|\b\d{6,9}-\d\b` at the current position. -/
def codeAt (prev : Option Char) (cs : List Char) : Option (List Char) :=
  if !(boundaryOk prev) then none
  else
    let (d, r1) := takeDigits cs
    if d = [] then none
    else
      let alt1 :=
        if d.length ≤ 3 then
          let (g, r2) := takeGroups r1
          match r2 with
          | '-' :: x :: r3 =>
            if x.isDigit && (match r3 with | [] => true | c :: _ => !(isWordChar c)) then
              some (d ++ g ++ ['-', x])
            else none
          | _ => none
        else none
      match alt1 with
      | some res => some res
      | none =>
        if 6 ≤ d.length ∧ d.length ≤ 9 then
          match r1 with
          | '-' :: x :: r3 =>
            if x.isDigit && (match r3 with | [] => true | c :: _ => !(isWordChar c)) then
              some (d ++ ['-', x])
            else none
          | _ => none
        else none

/-- Leftmost customer-code occurrence. -/
def searchCode (prev : Option Char) : List Char → Option (List Char)
  | [] => none
  | c :: rest =>
    match codeAt prev (c :: rest) with
    | some tok => some tok
    | none => searchCode (some c) rest

/-- The anchored loop of `extract_customer_code`: find the first line whose
uppercase form contains "B3 COMERCIAL" at an index `i > 0`; `prevLine` is
line `i − 1`.  Returns `some (some cand)` on an accepted candidate,
`some none` for the `break` on a rejected one, `none` when the loop ends. -/
def codeLoop (prevLine : Option (List Char)) : List (List Char) → Option (Option (List Char))
  | [] => none
  | l :: rest =>
    if containsSub "B3 COMERCIAL".data (l.map toUpperPy) then
      match prevLine with
      | none => codeLoop (some l) rest
      | some p =>
        let cand := pyStrip p
        if cand ≠ [] ∧ cand.all (fun c => c.isDigit || c == '.' || c == '-') then
          some (some cand)
        else some none
    else codeLoop (some l) rest

/-- Python `" ".join(lines)`. -/
def joinSpace : List (List Char) → List Char
  | [] => []
  | [l] => l
  | l :: l' :: ls => l ++ ' ' :: joinSpace (l' :: ls)

/-- `extract_customer_code` of the source. -/
def extract_customer_code (lines : List (List Char)) : Option (List Char) :=
  match codeLoop none lines with
  | some (some cand) => some cand
  | _ => searchCode none (joinSpace lines)

/-! ### The orchestrator `extract_fields_from_pdf` (source lines 194–248),
taken from the point where the collaborator-supplied full text is in hand -/

/-- The `ExtractedRecord` returned by the orchestrator. -/
structure ExtractedRecord where
  nome : Option (List Char)
  codigo : Option (List Char)
  ref_mes_ano : Option String
  total_a_pagar : Option ℚ
  vencimento : Option String
  leitura_anterior : Option String
  leitura_atual : Option String
  custo_tusd_fio_b : Option ℚ
  consumo : Option Int
  saldo_anterior : Option Int
  injetado : Option Int
  compensado : Option Int
  saldo_atual : Option Int
  deriving DecidableEq

/-- `extract_fields_from_pdf` of the source, from the full page-concatenated
text onward (the PDF text extraction itself is the out-of-scope I/O
collaborator). -/
def extract_fields (full_text : String) : ExtractedRecord :=
  let text_norm := clean_spaces full_text
  let lines := ((splitOnNl full_text.data).map pyStrip).filter (fun l => l ≠ [])
  let nome := extract_customer_name lines
  let codigo := extract_customer_code lines
  let ref_mes_ano := extract_ref_mes_ano text_norm
  let total_a_pagar := extract_total_a_pagar text_norm
  let vencimento := extract_vencimento text_norm
  let la0 := extract_first_date_after "LEITURA ANTERIOR" text_norm
  let lat0 := extract_first_date_after "LEITURA ATUAL" text_norm
  let fb := if la0 = none ∨ lat0 = none then extract_leituras_por_bloco text_norm
            else (none, none)
  let leitura_anterior := match la0 with | some v => some v | none => fb.1
  let leitura_atual := match lat0 with | some v => some v | none => fb.2
  let custo_tusd_fio_b := extract_custo_tusd_fio_b full_text
  let consumo := extract_consumo_kwh lines
  let sa := extract_kwh_after_label full_text "SALDO ANTERIOR"
  let inj := extract_kwh_after_label full_text "INJETADO"
  let comp := extract_kwh_after_label full_text "COMPENSADO"
  let satl := extract_kwh_after_label full_text "SALDO ATUAL"
  let quartet :=
    if sa = none ∧ inj = none ∧ comp = none ∧ satl = none then
      (some (0 : Int), some (0 : Int), some (0 : Int), some (0 : Int))
    else (sa, inj, comp, satl)
  { nome := nome, codigo := codigo, ref_mes_ano := ref_mes_ano,
    total_a_pagar := total_a_pagar, vencimento := vencimento,
    leitura_anterior := leitura_anterior, leitura_atual := leitura_atual,
    custo_tusd_fio_b := custo_tusd_fio_b, consumo := consumo,
    saldo_anterior := quartet.1, injetado := quartet.2.1,
    compensado := quartet.2.2.1, saldo_atual := quartet.2.2.2 }

/-! ### Shapes of `RE_NUM_BR` tokens (used to state the anti-concatenation
property of the kWh recognizer) -/

/-- A (possibly empty) run of `.ddd` thousands groups. -/
inductive Groups : List Char → Prop where
  | nil : Groups []
  | cons (a b c : Char) (rest : List Char) (ha : a.isDigit = true) (hb : b.isDigit = true)
      (hc : c.isDigit = true) (h : Groups rest) : Groups ('.' :: a :: b :: c :: rest)

/-- A thousands-grouped `RE_NUM_BR` token: 1–3 lead digits, at least one
`.ddd` group, and an optional `,dd` decimal remainder. -/
def GroupedNum (n : List Char) : Prop :=
  ∃ lead gs dec, n = lead ++ gs ++ dec ∧ lead ≠ [] ∧ (∀ c ∈ lead, c.isDigit = true) ∧
    lead.length ≤ 3 ∧ gs ≠ [] ∧ Groups gs ∧
    (dec = [] ∨ ∃ a b, dec = [',', a, b] ∧ a.isDigit = true ∧ b.isDigit = true)

/-- A plain digit run carrying a `,dd` decimal remainder. -/
def PlainCommaNum (n : List Char) : Prop :=
  ∃ ds a b, n = ds ++ [',', a, b] ∧ ds ≠ [] ∧ (∀ c ∈ ds, c.isDigit = true) ∧
    a.isDigit = true ∧ b.isDigit = true

/-- The customer-name recognizer, written the way the spec describes it:
filter the first 80 lines down to the non-boilerplate ones, take the first
qualifying one, else fall back to the first line. -/
def customer_name_spec (lines : List (List Char)) : Option (List Char) :=
  match ((lines.take 80).filter (fun l => !hasMarker l)).find? nameQualifies with
  | some l => some (pyStrip l)
  | none => lines.head?.map pyStrip

/-- A `DD/MM/YYYY` date occurs somewhere in the text, with the word
boundaries `RE_DATE` requires. -/
def DateOcc (t : String) : Prop :=
  ∃ a b d r, t.data = a ++ b ∧ dateAt (lastOr none a) b = some (d, r)

/-- The reading-history block pattern occurs in the text with first and
second dates `d1`, `d2`. -/
def BlocoOcc (t : String) (d1 d2 : List Char) : Prop :=
  ∃ a b, t.data = a ++ b ∧ matchBlocoAt (lastOr none a) b = some (d1, d2)

/-! ### The calling layer's derived metrics (`app.py` lines 92–118) -/

/-- The dynamic values a record field can hold when it reaches the calling
layer's arithmetic (Python is untyped there, so the balance check guards
itself with `try/except`). -/
inductive PyVal where
  | none
  | int (n : Int)
  | str (s : String)
  deriving DecidableEq

/-- Python truthiness, as used by `fields.get(...) or 0`. -/
def pyTruthy : PyVal → Bool
  | .none => false
  | .int n => n ≠ 0
  | .str s => s ≠ ""

/-- `x or 0` of the balance check. -/
def pyOrZero (v : PyVal) : PyVal :=
  if pyTruthy v then v else .int 0

/-- Python `int(·)` on a dynamic value: identity on integers, parse of a
digit-only string, `TypeError`/`ValueError` otherwise. -/
def pyToInt : PyVal → Except Unit Int
  | .int n => .ok n
  | .str s => match pyIntParse s.data with
              | some n => .ok n
              | Option.none => .error ()
  | .none => .error ()

/-- The three derived columns of the balance check. -/
structure CheckSaldo where
  saldo_atual_calc : Option Int
  check_saldo : String
  dif : Option Int
  deriving DecidableEq

/-- The `CHECK SALDO` computation of `app.py` (lines 92–106): inside the
`try`, each of the four quartet fields is coerced with `int(· or 0)`; any
raised error is swallowed into the `"ERRO"` row. -/
def check_saldo (sa inj comp atual : PyVal) : CheckSaldo :=
  match pyToInt (pyOrZero sa), pyToInt (pyOrZero inj),
        pyToInt (pyOrZero comp), pyToInt (pyOrZero atual) with
  | .ok a, .ok i, .ok c, .ok at_ =>
    let calcv := a + i - c
    { saldo_atual_calc := some calcv,
      check_saldo := if at_ = calcv then "OK" else "DIVERGENTE",
      dif := some (at_ - calcv) }
  | _, _, _, _ =>
    { saldo_atual_calc := none, check_saldo := "ERRO", dif := none }

/-- Injection of an orchestrator field into the dynamic value space. -/
def toPy : Option Int → PyVal
  | Option.none => .none
  | some n => .int n

/-- The `TARIFA FIO B` computation of `app.py` (lines 108–118): absent when
the fee amount is absent or the compensated quantity is absent or zero,
else the exact quotient. -/
def tarifa_fio_b (custo : Option ℚ) (compensado : Option Int) : Option ℚ :=
  match custo, compensado with
  | some c, some k => if k = 0 then none else some (c / (k : ℚ))
  | _, _ => none

/-! ### Helper lemmas -/

theorem ws_not_digit {c : Char} (h : isSpacePy c = true) : c.isDigit = false := by
  simp only [isSpacePy, Bool.or_eq_true, beq_iff_eq] at h
  rcases h with ((((rfl | rfl) | rfl) | rfl) | rfl) | rfl <;> decide

theorem ws_ne_comma {c : Char} (h : isSpacePy c = true) : c ≠ ',' := by
  simp only [isSpacePy, Bool.or_eq_true, beq_iff_eq] at h
  rcases h with ((((rfl | rfl) | rfl) | rfl) | rfl) | rfl <;> decide

theorem digit_ne_space {c : Char} (h : c.isDigit = true) : c ≠ ' ' := by
  intro e; subst e; exact absurd h (by decide)

theorem digit_ne_dot {c : Char} (h : c.isDigit = true) : c ≠ '.' := by
  intro e; subst e; exact absurd h (by decide)

/-- Filtering commutes with `takeWhile` when every removed element would have
been kept by the `takeWhile` predicate. -/
theorem takeWhile_filter_comm (p q : Char → Bool) (h : ∀ c, p c = false → q c = true) :
    ∀ l : List Char, (l.filter p).takeWhile q = (l.takeWhile q).filter p
  | [] => rfl
  | c :: l => by
    rw [List.filter_cons, List.takeWhile_cons]
    rcases hp : p c with _ | _
    · rw [if_neg (by simp [hp]), takeWhile_filter_comm p q h l,
        if_pos (by simp [h c hp]), List.filter_cons, if_neg (by simp [hp])]
    · rw [if_pos (by simp [hp]), List.takeWhile_cons]
      rcases hq : q c with _ | _
      · rw [if_neg (by simp [hq]), if_neg (by simp [hq])]
        rfl
      · rw [if_pos (by simp [hq]), if_pos (by simp [hq]), List.filter_cons,
          if_pos (by simp [hp]), takeWhile_filter_comm p q h l]

/-- Dropping a satisfying prefix commutes with `takeWhile` when every dropped
element satisfies the `takeWhile` predicate. -/
theorem takeWhile_dropWhile_comm (p q : Char → Bool) (h : ∀ c, p c = true → q c = true) :
    ∀ l : List Char, (l.dropWhile p).takeWhile q = (l.takeWhile q).dropWhile p
  | [] => rfl
  | c :: l => by
    rw [List.dropWhile_cons, List.takeWhile_cons]
    rcases hp : p c with _ | _
    · rw [if_neg (by simp [hp])]
      rcases hq : q c with _ | _
      · rw [if_neg (by simp [hq]), List.takeWhile_cons, if_neg (by simp [hq]),
          List.dropWhile_nil]
      · rw [if_pos (by simp [hq]), List.takeWhile_cons, if_pos (by simp [hq]),
          List.dropWhile_cons, if_neg (by simp [hp])]
    · rw [if_pos (by simp [hp]), if_pos (by simp [h c hp]),
        List.dropWhile_cons, if_pos (by simp [hp]),
        takeWhile_dropWhile_comm p q h l]

/-- An inner filter is invisible to an outer filter whose kept elements all
pass the inner one. -/
theorem filter_sub_filter (p q : Char → Bool) (h : ∀ c, q c = true → p c = true) :
    ∀ l : List Char, (l.filter p).filter q = l.filter q
  | [] => rfl
  | c :: l => by
    rw [List.filter_cons, List.filter_cons]
    rcases hq : q c with _ | _
    · rcases hp : p c with _ | _
      · rw [if_neg (by simp [hp]), if_neg (by simp [hq]), filter_sub_filter p q h l]
      · rw [if_pos (by simp [hp]), List.filter_cons, if_neg (by simp [hq]),
          if_neg (by simp [hq]), filter_sub_filter p q h l]
    · rw [if_pos (by simp [h c hq]), List.filter_cons, if_pos (by simp [hq]),
        if_pos (by simp [hq]), filter_sub_filter p q h l]

/-- Dropping a prefix of elements the filter would discard anyway. -/
theorem filter_dropWhile_nil (p q : Char → Bool) (h : ∀ c, p c = true → q c = false) :
    ∀ l : List Char, (l.dropWhile p).filter q = l.filter q
  | [] => rfl
  | c :: l => by
    rw [List.dropWhile_cons, List.filter_cons]
    rcases hp : p c with _ | _
    · rw [if_neg (by simp [hp]), List.filter_cons]
    · rw [if_pos (by simp [hp]), if_neg (by simp [h c hp]), filter_dropWhile_nil p q h l]

/-- Appending a suffix whose elements the filter discards does not change the
filtered `takeWhile`. -/
theorem filter_takeWhile_append (p q : Char → Bool) (w : List Char)
    (hw : ∀ c ∈ w, q c = false) :
    ∀ m : List Char, ((m ++ w).takeWhile p).filter q = (m.takeWhile p).filter q
  | [] => by
    simp only [List.nil_append, List.takeWhile_nil, List.filter_nil]
    rw [List.filter_eq_nil_iff]
    intro a ha
    have haw : a ∈ w := (List.takeWhile_prefix _).sublist.subset ha
    simp [hw a haw]
  | c :: m => by
    rw [List.cons_append, List.takeWhile_cons, List.takeWhile_cons]
    rcases hp : p c with _ | _
    · rw [if_neg (by simp [hp]), if_neg (by simp [hp])]
    · rw [if_pos (by simp [hp]), if_pos (by simp [hp]), List.filter_cons, List.filter_cons,
        filter_takeWhile_append p q w hw m]

/-- `pyStrip` splits off an all-whitespace suffix of the leading-stripped list. -/
theorem pyStrip_decomp (l : List Char) :
    ∃ w, (∀ c ∈ w, isSpacePy c = true) ∧ l.dropWhile isSpacePy = pyStrip l ++ w := by
  refine ⟨((l.dropWhile isSpacePy).reverse.takeWhile isSpacePy).reverse, ?_, ?_⟩
  · intro c hc
    rw [List.mem_reverse] at hc
    exact List.mem_takeWhile_imp hc
  · unfold pyStrip
    conv_lhs => rw [← (l.dropWhile isSpacePy).reverse_reverse,
      ← List.takeWhile_append_dropWhile (p := isSpacePy) (l := (l.dropWhile isSpacePy).reverse)]
    rw [List.reverse_append]

/-- The digit string `normalize_kwh` finally parses is exactly the digit
subsequence of the input before its first comma. -/
theorem normalize_kwh_list_eq (raw : List Char) :
    normalize_kwh_list raw =
      (if (raw.takeWhile (fun c => c ≠ ',')).filter (fun c => c.isDigit) = [] then none
       else some (digitsToInt ((raw.takeWhile (fun c => c ≠ ',')).filter
         (fun c => c.isDigit)))) := by
  by_cases hraw : raw = []
  · subst hraw; rfl
  · simp only [normalize_kwh_list, if_neg hraw]
    have hs2 :
        (if ((pyStrip raw).filter (fun c => c ≠ ' ')).contains ',' then
          ((pyStrip raw).filter (fun c => c ≠ ' ')).takeWhile (fun c => c ≠ ',')
         else (pyStrip raw).filter (fun c => c ≠ ' ')) =
        ((pyStrip raw).filter (fun c => c ≠ ' ')).takeWhile (fun c => c ≠ ',') := by
      by_cases hc : ((pyStrip raw).filter (fun c => c ≠ ' ')).contains ','
      · rw [if_pos hc]
      · rw [if_neg hc, List.takeWhile_eq_self_iff.mpr]
        intro x hx
        simp only [List.contains_eq_any_beq, List.any_eq_true, beq_iff_eq] at hc
        simp only [ne_eq, decide_eq_true_eq]
        intro e
        exact hc ⟨x, hx, e.symm⟩
    rw [hs2]
    rw [filter_sub_filter (fun c => decide (c ≠ '.')) (fun c => c.isDigit)
      (fun c h => by simpa using digit_ne_dot h)]
    rw [takeWhile_filter_comm (fun c => decide (c ≠ ' ')) (fun c => decide (c ≠ ','))
      (fun c hc => by
        have : c = ' ' := by simpa using hc
        subst this; decide)]
    rw [filter_sub_filter (fun c => decide (c ≠ ' ')) (fun c => c.isDigit)
      (fun c h => by simpa using digit_ne_space h)]
    obtain ⟨w, hw, hdec⟩ := pyStrip_decomp raw
    rw [← filter_takeWhile_append (fun c => decide (c ≠ ',')) (fun c => c.isDigit) w
      (fun c hcw => ws_not_digit (hw c hcw)) (pyStrip raw)]
    rw [← hdec]
    rw [takeWhile_dropWhile_comm isSpacePy (fun c => decide (c ≠ ','))
      (fun c hc => by simpa using ws_ne_comma hc)]
    rw [filter_dropWhile_nil isSpacePy (fun c => c.isDigit)
      (fun c hc => ws_not_digit hc)]

/-! ## Claims -/

/-- **C3**: the energy-quantity normalizer strips internal spaces, discards
everything from a decimal comma onward, strips thousands periods and
remaining non-digits, and parses the remaining digits; it is absent exactly
when no digit occurs before the first comma (in particular on the empty
string).  The spec's four examples are verified, and the general
characterization identifies the parsed digits with the digit subsequence of
the input before its first comma. -/
theorem C3_energy_normalizer :
    normalize_kwh "5.920,00" = some 5920 ∧
    normalize_kwh "16.774" = some 16774 ∧
    normalize_kwh "10 504" = some 10504 ∧
    normalize_kwh "" = none ∧
    (∀ raw : String,
      normalize_kwh raw =
        (if (raw.data.takeWhile (fun c => c ≠ ',')).filter (fun c => c.isDigit) = [] then
          none
         else some (digitsToInt ((raw.data.takeWhile (fun c => c ≠ ',')).filter
           (fun c => c.isDigit))))) ∧
    (∀ raw : String,
      (normalize_kwh raw = none ↔
        (raw.data.takeWhile (fun c => c ≠ ',')).all (fun c => !c.isDigit))) := by
  refine ⟨by decide, by decide, by decide, by decide, ?_, ?_⟩
  · intro raw; exact normalize_kwh_list_eq raw.data
  · intro raw
    rw [show normalize_kwh raw = _ from normalize_kwh_list_eq raw.data]
    by_cases h : (raw.data.takeWhile (fun c => c ≠ ',')).filter (fun c => c.isDigit) = []
    · rw [if_pos h]
      refine iff_of_true rfl ?_
      rw [List.filter_eq_nil_iff] at h
      rw [List.all_eq_true]
      intro x hx
      simpa using h x hx
    · rw [if_neg h]
      refine iff_of_false (by simp) ?_
      obtain ⟨a, ha⟩ := List.exists_mem_of_ne_nil _ h
      obtain ⟨ha1, ha2⟩ := List.mem_filter.mp ha
      rw [List.all_eq_true]
      intro hall
      have h2 := hall a ha1
      rw [ha2] at h2
      exact absurd h2 (by decide)

/-- **C4**: both value normalizers are total over arbitrary text: running them
with the Python exception channel made explicit always yields an `ok`
result (absent or a typed value), never a raised error — for the energy
normalizer because the string handed to `int()` is a non-empty all-digit
string, and for the currency normalizer because the `float()` call is
wrapped in `try/except`. -/
theorem C4_normalizers_total (raw : String) :
    normalize_kwh_run raw = .ok (normalize_kwh raw) ∧
    normalize_brl_run raw = .ok (normalize_brl raw) := by
  constructor
  · unfold normalize_kwh_run normalize_kwh normalize_kwh_list
    by_cases h0 : raw.data = []
    · rw [if_pos h0, if_pos h0]
    · rw [if_neg h0, if_neg h0]
      set s4 := (((if ((pyStrip raw.data).filter (fun c => c ≠ ' ')).contains ',' then
          ((pyStrip raw.data).filter (fun c => c ≠ ' ')).takeWhile (fun c => c ≠ ',')
        else (pyStrip raw.data).filter (fun c => c ≠ ' ')).filter
          (fun c => c ≠ '.')).filter (fun c => c.isDigit)) with hs4
      by_cases h4 : s4 = []
      · rw [if_pos h4, if_pos h4]
      · rw [if_neg h4, if_neg h4]
        have hall : s4.all Char.isDigit := by
          rw [List.all_eq_true]
          intro x hx
          rw [hs4] at hx
          exact (List.mem_filter.mp hx).2
        rw [pyIntParse, if_pos ⟨h4, hall⟩]
  · unfold normalize_brl_run normalize_brl
    by_cases h0 : raw.data = []
    · rw [if_pos h0, if_pos h0]
    · rw [if_neg h0, if_neg h0]
      set s2 := (pyStrip ((removeRS raw.data).filter (fun c => c ≠ ' '))).filter
        (fun c => c.isDigit || c == '.' || c == ',') with hs2
      by_cases h2 : s2 = []
      · rw [if_pos h2, if_pos h2]
      · rw [if_neg h2, if_neg h2]
        dsimp only
        split <;> rfl

/-- **C7**: the derived per-unit fee rate is defined, and equal to the
fee-component amount divided by the compensated quantity, exactly when the
fee amount is present and the compensated quantity is present and nonzero;
it is absent whenever the compensated quantity is absent or zero.  Stated
for every extracted record (the two inputs of the computation range over
exactly the record fields the calling layer reads). -/
theorem C7_tarifa_fio_b (t : String) :
    ((tarifa_fio_b (extract_fields t).custo_tusd_fio_b
        (extract_fields t).compensado).isSome ↔
      (∃ c, (extract_fields t).custo_tusd_fio_b = some c) ∧
        ∃ k, (extract_fields t).compensado = some k ∧ k ≠ 0) ∧
    (∀ c k, (extract_fields t).custo_tusd_fio_b = some c →
      (extract_fields t).compensado = some k → k ≠ 0 →
      tarifa_fio_b (extract_fields t).custo_tusd_fio_b (extract_fields t).compensado =
        some (c / (k : ℚ))) ∧
    ((extract_fields t).compensado = none ∨ (extract_fields t).compensado = some 0 →
      tarifa_fio_b (extract_fields t).custo_tusd_fio_b
        (extract_fields t).compensado = none) := by
  rcases hc : (extract_fields t).custo_tusd_fio_b with _ | c <;>
    rcases hk : (extract_fields t).compensado with _ | k
  · exact ⟨by simp [tarifa_fio_b], by simp, fun _ => by simp [tarifa_fio_b]⟩
  · refine ⟨by simp [tarifa_fio_b], by simp, ?_⟩
    rintro (h | h)
    · exact absurd h (by simp)
    · simp only [Option.some.injEq] at h
      subst h; simp [tarifa_fio_b]
  · exact ⟨by simp [tarifa_fio_b], by simp, fun _ => by simp [tarifa_fio_b]⟩
  · constructor
    · by_cases hz : k = 0
      · subst hz
        simp [tarifa_fio_b]
      · simp [tarifa_fio_b, hz]
    · refine ⟨?_, ?_⟩
      · rintro c' k' hc' hk' hz'
        simp only [Option.some.injEq] at hc' hk'
        subst hc'; subst hk'
        simp [tarifa_fio_b, hz']
      · rintro (h | h)
        · exact absurd h (by simp)
        · simp only [Option.some.injEq] at h
          subst h; simp [tarifa_fio_b]

/-- **C9**: for every record the extractor produces, the balance check of the
calling layer never takes its error branch: each quartet field is an
integer or `None` (coerced to zero by `· or 0`), so the label is always
`"OK"` or `"DIVERGENTE"` and the calculated balance and difference are
always computed. -/
theorem C9_check_saldo_no_erro (t : String) :
    (check_saldo (toPy (extract_fields t).saldo_anterior) (toPy (extract_fields t).injetado)
        (toPy (extract_fields t).compensado) (toPy (extract_fields t).saldo_atual)).check_saldo
        ≠ "ERRO" ∧
    ((check_saldo (toPy (extract_fields t).saldo_anterior) (toPy (extract_fields t).injetado)
        (toPy (extract_fields t).compensado) (toPy (extract_fields t).saldo_atual)).check_saldo
        = "OK" ∨
     (check_saldo (toPy (extract_fields t).saldo_anterior) (toPy (extract_fields t).injetado)
        (toPy (extract_fields t).compensado) (toPy (extract_fields t).saldo_atual)).check_saldo
        = "DIVERGENTE") ∧
    (check_saldo (toPy (extract_fields t).saldo_anterior) (toPy (extract_fields t).injetado)
        (toPy (extract_fields t).compensado)
        (toPy (extract_fields t).saldo_atual)).saldo_atual_calc.isSome ∧
    (check_saldo (toPy (extract_fields t).saldo_anterior) (toPy (extract_fields t).injetado)
        (toPy (extract_fields t).compensado)
        (toPy (extract_fields t).saldo_atual)).dif.isSome := by
  have hint : ∀ v : Option Int, ∃ n : Int, pyToInt (pyOrZero (toPy v)) = .ok n := by
    intro v
    rcases v with _ | n
    · exact ⟨0, rfl⟩
    · by_cases hz : n = 0
      · subst hz; exact ⟨0, rfl⟩
      · refine ⟨n, ?_⟩
        simp [toPy, pyOrZero, pyTruthy, hz, pyToInt]
  obtain ⟨a, ha⟩ := hint (extract_fields t).saldo_anterior
  obtain ⟨i, hi⟩ := hint (extract_fields t).injetado
  obtain ⟨c, hcmp⟩ := hint (extract_fields t).compensado
  obtain ⟨x, hx⟩ := hint (extract_fields t).saldo_atual
  unfold check_saldo
  rw [ha, hi, hcmp, hx]
  refine ⟨?_, ?_, rfl, rfl⟩
  · by_cases he : x = a + i - c <;> simp [he]
  · by_cases he : x = a + i - c
    · left; simp [he]
    · right; simp [he]

/-- **C7 witness**: on a concrete document carrying both the fee line and a
compensated quantity of 30 kWh, the derived rate is 1262.22 / 30. -/
theorem C7_tarifa_fio_b_witness :
    tarifa_fio_b
        (extract_fields "CUSTO TUSD FIO B 1.262,22\nCOMPENSADO 30").custo_tusd_fio_b
        (extract_fields "CUSTO TUSD FIO B 1.262,22\nCOMPENSADO 30").compensado =
      some (mkRat 21037 500) := by
  have h := C7_tarifa_fio_b "CUSTO TUSD FIO B 1.262,22\nCOMPENSADO 30"
  have h2 := h.2.1 (mkRat 63111 50) 30 (by decide) (by decide) (by decide)
  rw [h2]
  norm_num [Rat.mkRat_eq_div]

/-- The quartet fields of the record are the four label extractions, replaced
as a group by zeros exactly when all four are absent. -/
theorem extract_fields_quartet (t : String) :
    ((extract_fields t).saldo_anterior, (extract_fields t).injetado,
     (extract_fields t).compensado, (extract_fields t).saldo_atual) =
    (if extract_kwh_after_label t "SALDO ANTERIOR" = none ∧
        extract_kwh_after_label t "INJETADO" = none ∧
        extract_kwh_after_label t "COMPENSADO" = none ∧
        extract_kwh_after_label t "SALDO ATUAL" = none then
      (some (0 : Int), some (0 : Int), some (0 : Int), some (0 : Int))
     else
      (extract_kwh_after_label t "SALDO ANTERIOR", extract_kwh_after_label t "INJETADO",
       extract_kwh_after_label t "COMPENSADO", extract_kwh_after_label t "SALDO ATUAL")) := by
  by_cases h : extract_kwh_after_label t "SALDO ANTERIOR" = none ∧
      extract_kwh_after_label t "INJETADO" = none ∧
      extract_kwh_after_label t "COMPENSADO" = none ∧
      extract_kwh_after_label t "SALDO ATUAL" = none
  · simp only [extract_fields]
  · simp only [extract_fields]

/-- **C1 counterexample**: on the document `"SALDO ANTERIOR 100"` only the
prior-balance label is recognized, so the record holds a partial mix
(prior balance present, the other three absent): the quartet is neither
all-present nor all-zero. -/
theorem C1_counterexample :
    ¬(((extract_fields "SALDO ANTERIOR 100").saldo_anterior.isSome ∧
       (extract_fields "SALDO ANTERIOR 100").injetado.isSome ∧
       (extract_fields "SALDO ANTERIOR 100").compensado.isSome ∧
       (extract_fields "SALDO ANTERIOR 100").saldo_atual.isSome) ∨
      ((extract_fields "SALDO ANTERIOR 100").saldo_anterior = some 0 ∧
       (extract_fields "SALDO ANTERIOR 100").injetado = some 0 ∧
       (extract_fields "SALDO ANTERIOR 100").compensado = some 0 ∧
       (extract_fields "SALDO ANTERIOR 100").saldo_atual = some 0)) := by
  decide

/-- **C1 amended**: the quartet is zero-filled as a group exactly when all
four labels fail; consequently the record's quartet is never all-absent.
(When only some labels are recognized, the remaining fields stay absent, so
a partial mix of present and absent can occur — the all-or-nothing claim
holds only in the no-net-metering-section case.) -/
theorem C1_net_metering_quartet_amended (t : String) :
    ¬((extract_fields t).saldo_anterior = none ∧ (extract_fields t).injetado = none ∧
      (extract_fields t).compensado = none ∧ (extract_fields t).saldo_atual = none) ∧
    (extract_kwh_after_label t "SALDO ANTERIOR" = none →
     extract_kwh_after_label t "INJETADO" = none →
     extract_kwh_after_label t "COMPENSADO" = none →
     extract_kwh_after_label t "SALDO ATUAL" = none →
     (extract_fields t).saldo_anterior = some 0 ∧ (extract_fields t).injetado = some 0 ∧
     (extract_fields t).compensado = some 0 ∧ (extract_fields t).saldo_atual = some 0) := by
  have hq := extract_fields_quartet t
  by_cases h : extract_kwh_after_label t "SALDO ANTERIOR" = none ∧
      extract_kwh_after_label t "INJETADO" = none ∧
      extract_kwh_after_label t "COMPENSADO" = none ∧
      extract_kwh_after_label t "SALDO ATUAL" = none
  · rw [if_pos h] at hq
    rw [Prod.ext_iff, Prod.ext_iff, Prod.ext_iff] at hq
    simp only [] at hq
    obtain ⟨e1, e2, e3, e4⟩ := hq
    constructor
    · rintro ⟨n1, _, _, _⟩
      rw [e1] at n1
      exact Option.noConfusion n1
    · intro _ _ _ _
      exact ⟨e1, e2, e3, e4⟩
  · rw [if_neg h] at hq
    rw [Prod.ext_iff, Prod.ext_iff, Prod.ext_iff] at hq
    simp only [] at hq
    obtain ⟨e1, e2, e3, e4⟩ := hq
    constructor
    · rintro ⟨n1, n2, n3, n4⟩
      exact h ⟨e1.symm.trans n1, e2.symm.trans n2, e3.symm.trans n3, e4.symm.trans n4⟩
    · intro m1 m2 m3 m4
      exact absurd ⟨m1, m2, m3, m4⟩ h

/-- **C1 amended, witness**: on a document with no net-metering label at all,
the quartet is all zeros (and in particular not all-absent). -/
theorem C1_net_metering_quartet_amended_witness :
    ¬((extract_fields "X").saldo_anterior = none ∧ (extract_fields "X").injetado = none ∧
      (extract_fields "X").compensado = none ∧ (extract_fields "X").saldo_atual = none) ∧
    ((extract_fields "X").saldo_anterior = some 0 ∧ (extract_fields "X").injetado = some 0 ∧
     (extract_fields "X").compensado = some 0 ∧ (extract_fields "X").saldo_atual = some 0) := by
  have h := C1_net_metering_quartet_amended "X"
  exact ⟨h.1, h.2 (by decide) (by decide) (by decide) (by decide)⟩

/-- The name loop is the find-first-qualifying-non-boilerplate-line of the
first `fuel` lines. -/
theorem nameLoop_eq :
    ∀ (fuel : Nat) (lines : List (List Char)),
      nameLoop fuel lines =
        (((lines.take fuel).filter (fun l => !hasMarker l)).find? nameQualifies).map pyStrip
  | 0, lines => by
    rw [List.take_zero]
    rcases lines with _ | ⟨l, rest⟩ <;> rfl
  | fuel + 1, [] => rfl
  | fuel + 1, l :: rest => by
    show (if hasMarker l then nameLoop fuel rest
          else if nameQualifies l then some (pyStrip l) else nameLoop fuel rest) = _
    rw [List.take_succ_cons, List.filter_cons]
    rcases hm : hasMarker l with _ | _
    · rw [if_neg (show ¬(false = true) from by decide),
        if_pos (show (!false) = true from by decide), List.find?_cons]
      rcases hq : nameQualifies l with _ | _
      · rw [if_neg (show ¬(false = true) from by decide)]
        exact nameLoop_eq fuel rest
      · rw [if_pos (show true = true from rfl)]
        rfl
    · rw [if_pos (show true = true from rfl),
        if_neg (show ¬((!true) = true) from by decide)]
      exact nameLoop_eq fuel rest

/-- **C6**: the customer-name recognizer scans at most the first 80 lines,
skips every boilerplate-marker line, returns the first remaining line that
is at least 12 characters long and contains a Latin/accented letter, and
falls back to the first line when none qualifies; on a non-empty line list
it always returns a value. -/
theorem C6_customer_name (lines : List (List Char)) :
    extract_customer_name lines = customer_name_spec lines ∧
    (lines ≠ [] → (extract_customer_name lines).isSome) := by
  constructor
  · unfold extract_customer_name customer_name_spec
    rw [nameLoop_eq 80 lines]
    rcases hf : ((lines.take 80).filter (fun l => !hasMarker l)).find? nameQualifies
        with _ | l
    · rcases lines with _ | ⟨l0, rest⟩ <;> rfl
    · rfl
  · intro hne
    unfold extract_customer_name
    rcases hl : nameLoop 80 lines with _ | l
    · rcases lines with _ | ⟨l0, rest⟩
      · exact absurd rfl hne
      · rfl
    · rfl

/-- **C6 witness**: on a concrete two-line document whose first line is
boilerplate, the recognizer agrees with the spec description and returns a
value. -/
theorem C6_customer_name_witness :
    extract_customer_name ["NOTA FISCAL 123".data, "FULANO DE TAL SILVA".data] =
      customer_name_spec ["NOTA FISCAL 123".data, "FULANO DE TAL SILVA".data] ∧
    (extract_customer_name
      ["NOTA FISCAL 123".data, "FULANO DE TAL SILVA".data]).isSome := by
  have h := C6_customer_name ["NOTA FISCAL 123".data, "FULANO DE TAL SILVA".data]
  exact ⟨h.1, h.2 (by decide)⟩

/-! ### Nonnegativity of the integer-typed fields (C10) -/

/-- The digit fold is nonnegative on digit strings. -/
theorem digitsToInt_nonneg (ds : List Char) (h : ∀ c ∈ ds, c.isDigit = true) :
    0 ≤ digitsToInt ds := by
  unfold digitsToInt
  suffices hgen : ∀ a : Int, 0 ≤ a →
      0 ≤ ds.foldl (fun a c => 10 * a + ((c.toNat : Int) - 48)) a from hgen 0 le_rfl
  induction ds with
  | nil => intro a ha; simpa using ha
  | cons c ds ih =>
    intro a ha
    rw [List.foldl_cons]
    refine ih (fun x hx => h x (List.mem_cons_of_mem c hx)) _ ?_
    have hc := h c (List.mem_cons_self c ds)
    simp only [Char.isDigit, Bool.and_eq_true, decide_eq_true_eq] at hc
    have h48 : (48 : Nat) ≤ c.toNat := hc.1
    omega

/-- `normalize_kwh` never produces a negative integer. -/
theorem normalize_kwh_list_nonneg {raw : List Char} {n : Int}
    (h : normalize_kwh_list raw = some n) : 0 ≤ n := by
  rw [normalize_kwh_list_eq raw] at h
  by_cases hds : (raw.takeWhile (fun c => c ≠ ',')).filter (fun c => c.isDigit) = []
  · rw [if_pos hds] at h
    exact Option.noConfusion h
  · rw [if_neg hds] at h
    have hn := Option.some.inj h
    subst hn
    exact digitsToInt_nonneg _ (fun c hc => (List.mem_filter.mp hc).2)

/-- The label-anchored kWh recognizer never produces a negative integer. -/
theorem extract_kwh_after_label_nonneg {t lab : String} {n : Int}
    (h : extract_kwh_after_label t lab = some n) : 0 ≤ n := by
  unfold extract_kwh_after_label at h
  split at h
  · exact Option.noConfusion h
  · dsimp only at h
    split at h
    · exact Option.noConfusion h
    · exact normalize_kwh_list_nonneg h

/-- The consumption recognizer never produces a negative integer. -/
theorem extract_consumo_kwh_nonneg :
    ∀ {lines : List (List Char)} {n : Int},
      extract_consumo_kwh lines = some n → 0 ≤ n := by
  intro lines
  induction lines with
  | nil => intro n h; exact Option.noConfusion h
  | cons l rest ih =>
    intro n h
    unfold extract_consumo_kwh at h
    dsimp only at h
    split at h
    · split at h
      · exact normalize_kwh_list_nonneg h
      · exact ih h
    · exact ih h

/-- **C10**: every integer-typed field of the record (consumption and the
four net-metering quartet fields) is nonnegative whenever present: the
energy normalizer parses a digits-only string, and the quartet's group
default is zero. -/
theorem C10_integer_fields_nonneg (t : String) (n : Int) :
    ((extract_fields t).consumo = some n → 0 ≤ n) ∧
    ((extract_fields t).saldo_anterior = some n → 0 ≤ n) ∧
    ((extract_fields t).injetado = some n → 0 ≤ n) ∧
    ((extract_fields t).compensado = some n → 0 ≤ n) ∧
    ((extract_fields t).saldo_atual = some n → 0 ≤ n) := by
  have hq := extract_fields_quartet t
  have hcons : (extract_fields t).consumo =
      extract_consumo_kwh (((splitOnNl t.data).map pyStrip).filter (fun l => l ≠ [])) := rfl
  refine ⟨fun h => extract_consumo_kwh_nonneg (hcons ▸ h), ?_⟩
  by_cases h : extract_kwh_after_label t "SALDO ANTERIOR" = none ∧
      extract_kwh_after_label t "INJETADO" = none ∧
      extract_kwh_after_label t "COMPENSADO" = none ∧
      extract_kwh_after_label t "SALDO ATUAL" = none
  · rw [if_pos h] at hq
    rw [Prod.ext_iff, Prod.ext_iff, Prod.ext_iff] at hq
    dsimp only at hq
    obtain ⟨e1, e2, e3, e4⟩ := hq
    refine ⟨?_, ?_, ?_, ?_⟩
    · intro hn; rw [e1] at hn; have := Option.some.inj hn; omega
    · intro hn; rw [e2] at hn; have := Option.some.inj hn; omega
    · intro hn; rw [e3] at hn; have := Option.some.inj hn; omega
    · intro hn; rw [e4] at hn; have := Option.some.inj hn; omega
  · rw [if_neg h] at hq
    rw [Prod.ext_iff, Prod.ext_iff, Prod.ext_iff] at hq
    dsimp only at hq
    obtain ⟨e1, e2, e3, e4⟩ := hq
    exact ⟨fun hn => extract_kwh_after_label_nonneg (e1 ▸ hn),
           fun hn => extract_kwh_after_label_nonneg (e2 ▸ hn),
           fun hn => extract_kwh_after_label_nonneg (e3 ▸ hn),
           fun hn => extract_kwh_after_label_nonneg (e4 ▸ hn)⟩

/-- **C10 witness**: on a concrete document with a consumption line and all
four quartet labels, every present integer field is nonnegative. -/
theorem C10_integer_fields_nonneg_witness :
    (0 : Int) ≤ 100 ∧ (0 : Int) ≤ 5 ∧ (0 : Int) ≤ 6 ∧ (0 : Int) ≤ 7 ∧ (0 : Int) ≤ 4 := by
  refine ⟨?_, ?_, ?_, ?_, ?_⟩
  · exact (C10_integer_fields_nonneg
      "ENERGIA ATIVA UNICO 100\nSALDO ANTERIOR 5\nINJETADO 6\nCOMPENSADO 7\nSALDO ATUAL 4"
      100).1 (by decide)
  · exact (C10_integer_fields_nonneg
      "ENERGIA ATIVA UNICO 100\nSALDO ANTERIOR 5\nINJETADO 6\nCOMPENSADO 7\nSALDO ATUAL 4"
      5).2.1 (by decide)
  · exact (C10_integer_fields_nonneg
      "ENERGIA ATIVA UNICO 100\nSALDO ANTERIOR 5\nINJETADO 6\nCOMPENSADO 7\nSALDO ATUAL 4"
      6).2.2.1 (by decide)
  · exact (C10_integer_fields_nonneg
      "ENERGIA ATIVA UNICO 100\nSALDO ANTERIOR 5\nINJETADO 6\nCOMPENSADO 7\nSALDO ATUAL 4"
      7).2.2.2.1 (by decide)
  · exact (C10_integer_fields_nonneg
      "ENERGIA ATIVA UNICO 100\nSALDO ANTERIOR 5\nINJETADO 6\nCOMPENSADO 7\nSALDO ATUAL 4"
      4).2.2.2.2 (by decide)

/-! ### The anti-concatenation property of the kWh recognizer (C2) -/

theorem digit_not_ws {c : Char} (h : c.isDigit = true) : isSpacePy c = false := by
  rcases hw : isSpacePy c with _ | _
  · rfl
  · rw [ws_not_digit hw] at h
    exact Bool.noConfusion h

theorem digit_not_sep {c : Char} (h : c.isDigit = true) : (c == ':' || c == '.') = false := by
  have h1 : c ≠ ':' := fun e => by subst e; exact Bool.noConfusion h
  have h2 : c ≠ '.' := digit_ne_dot h
  simp [h1, h2]

theorem digit_ne_comma {c : Char} (h : c.isDigit = true) : c ≠ ',' := by
  intro e; subst e; exact Bool.noConfusion h

/-- `takeWhile` walks through a prefix all of whose elements satisfy `p`. -/
theorem takeWhile_append_all (p : Char → Bool) (r : List Char) :
    ∀ d : List Char, (∀ c ∈ d, p c = true) → (d ++ r).takeWhile p = d ++ r.takeWhile p
  | [], _ => rfl
  | c :: d, hd => by
    rw [List.cons_append, List.takeWhile_cons, if_pos (hd c (List.mem_cons_self c d)),
      takeWhile_append_all p r d (fun x hx => hd x (List.mem_cons_of_mem c hx)),
      List.cons_append]

/-- `dropWhile` skips a prefix all of whose elements satisfy `p`. -/
theorem dropWhile_append_all (p : Char → Bool) (r : List Char)
    (hr : match r with | [] => True | c :: _ => p c = false) :
    ∀ d : List Char, (∀ c ∈ d, p c = true) → (d ++ r).dropWhile p = r
  | [], _ => by
    rcases r with _ | ⟨c, r'⟩
    · rfl
    · rw [List.nil_append, List.dropWhile_cons, if_neg (by simp [hr])]
  | c :: d, hd => by
    rw [List.cons_append, List.dropWhile_cons, if_pos (hd c (List.mem_cons_self c d))]
    exact dropWhile_append_all p r hr d (fun x hx => hd x (List.mem_cons_of_mem c hx))

/-- `takeDigits` splits exactly at a digit run followed by a non-digit. -/
theorem takeDigits_append (d r : List Char) (hd : ∀ c ∈ d, c.isDigit = true)
    (hr : match r with | [] => True | c :: _ => c.isDigit = false) :
    takeDigits (d ++ r) = (d, r) := by
  unfold takeDigits
  rw [takeWhile_append_all Char.isDigit r d hd, dropWhile_append_all Char.isDigit r hr d hd]
  rcases r with _ | ⟨c, r'⟩
  · rw [List.takeWhile_nil, List.append_nil]
  · rw [List.takeWhile_cons, if_neg (by simp [hr]), List.append_nil]

/-- `takeGroups` finds no group at a list that does not start with a period. -/
theorem takeGroups_eq_nil (rest : List Char)
    (h : rest = [] ∨ ∃ c r, rest = c :: r ∧ c ≠ '.') :
    takeGroups rest = ([], rest) := by
  rcases h with rfl | ⟨c, r, rfl, hc⟩
  · rfl
  · unfold takeGroups
    split
    · rename_i a b d rest' heq
      injection heq with h1 _
      exact absurd h1 hc
    · rfl

/-- `takeGroups` consumes exactly a run of groups when nothing groupish
follows. -/
theorem takeGroups_of_groups {gs : List Char} (hg : Groups gs) :
    ∀ rest : List Char, takeGroups rest = ([], rest) →
      takeGroups (gs ++ rest) = (gs, rest) := by
  induction hg with
  | nil =>
    intro rest hr
    simpa using hr
  | cons a b c gs' ha hb hc hg' ih =>
    intro rest hr
    show takeGroups ('.' :: a :: b :: c :: (gs' ++ rest)) = _
    rw [show takeGroups ('.' :: a :: b :: c :: (gs' ++ rest)) =
        (if (a.isDigit && b.isDigit && c.isDigit) = true then
          match takeGroups (gs' ++ rest) with
          | (g, r) => ('.' :: a :: b :: c :: g, r)
        else ([], '.' :: a :: b :: c :: (gs' ++ rest))) from rfl]
    rw [if_pos (by simp [ha, hb, hc]), ih rest hr]

/-- The caseless literal matcher accepts the pattern itself as a prefix. -/
theorem caselessStripT_self :
    ∀ (pat : List Char) (last : Option Char) (cs : List Char),
      caselessStripT pat last (pat ++ cs) = some (lastOr last pat, cs)
  | [], last, cs => rfl
  | p :: ps, last, cs => by
    show (if toUpperPy p == toUpperPy p then caselessStripT ps (some p) (ps ++ cs)
          else none) = _
    rw [if_pos (by simp), caselessStripT_self ps (some p) cs]
    rfl

/-- Structure facts about a well-formed first number: it starts with a digit,
and all its characters are digits, periods or commas (never spaces). -/
theorem numShape_facts {n1 : List Char} (h : GroupedNum n1 ∨ PlainCommaNum n1) :
    (∃ hc hrest, n1 = hc :: hrest ∧ hc.isDigit = true) ∧
    (∀ c ∈ n1, (c.isDigit = true ∨ c = '.' ∨ c = ',')) := by
  have groups_mem : ∀ {gs : List Char}, Groups gs → ∀ c ∈ gs,
      (c.isDigit = true ∨ c = '.' ∨ c = ',') := by
    intro gs hg
    induction hg with
    | nil => intro c hc; exact absurd hc (List.not_mem_nil c)
    | cons a b c' gs' ha hb hc' hg' ih =>
      intro c hc
      rcases hc with _ | ⟨_, hc⟩
      · right; left; rfl
      · rcases hc with _ | ⟨_, hc⟩
        · left; exact ha
        · rcases hc with _ | ⟨_, hc⟩
          · left; exact hb
          · rcases hc with _ | ⟨_, hc⟩
            · left; exact hc'
            · exact ih c hc
  rcases h with ⟨lead, gs, dec, rfl, hne, hdig, _, _, hgs, hdec⟩ |
      ⟨ds, a, b, rfl, hne, hdig, ha, hb⟩
  · constructor
    · rcases lead with _ | ⟨c0, lead'⟩
      · exact absurd rfl hne
      · exact ⟨c0, lead' ++ gs ++ dec, by simp, hdig c0 (List.mem_cons_self c0 lead')⟩
    · intro c hc
      rcases List.mem_append.mp hc with hc1 | hc2
      · rcases List.mem_append.mp hc1 with hc3 | hc4
        · left; exact hdig c hc3
        · exact groups_mem hgs c hc4
      · rcases hdec with rfl | ⟨x, y, rfl, hx, hy⟩
        · exact absurd hc2 (List.not_mem_nil c)
        · rcases hc2 with _ | ⟨_, hc2⟩
          · right; right; rfl
          · rcases hc2 with _ | ⟨_, hc2⟩
            · left; exact hx
            · rcases hc2 with _ | ⟨_, hc2⟩
              · left; exact hy
              · exact absurd hc2 (List.not_mem_nil c)
  · constructor
    · rcases ds with _ | ⟨c0, ds'⟩
      · exact absurd rfl hne
      · exact ⟨c0, ds' ++ [',', a, b], by simp, hdig c0 (List.mem_cons_self c0 ds')⟩
    · intro c hc
      rcases List.mem_append.mp hc with hc1 | hc2
      · left; exact hdig c hc1
      · rcases hc2 with _ | ⟨_, hc2⟩
        · right; right; rfl
        · rcases hc2 with _ | ⟨_, hc2⟩
          · left; exact ha
          · rcases hc2 with _ | ⟨_, hc2⟩
            · left; exact hb
            · exact absurd hc2 (List.not_mem_nil c)

/-- The leftmost `RE_NUM_BR` match on a well-formed first number followed by
a digit is exactly the first number. -/
theorem matchNumAt_first (n1 n2 : List Char)
    (h1 : GroupedNum n1 ∨ PlainCommaNum n1)
    (h2 : ∃ c r, n2 = c :: r ∧ c.isDigit = true) :
    matchNumAt (n1 ++ n2) = some (n1, n2) := by
  obtain ⟨c2, r2, rfl, hc2⟩ := h2
  rcases h1 with ⟨lead, gs, dec, rfl, hne, hdig, hlen, hgsne, hgs, hdec⟩ |
      ⟨ds, a, b, rfl, hne, hdig, ha, hb⟩
  · -- grouped case: the group run stops exactly at the end of `gs`
    have hdecgood : takeGroups (dec ++ (c2 :: r2)) = ([], dec ++ (c2 :: r2)) := by
      rcases hdec with rfl | ⟨x, y, rfl, hx, hy⟩
      · exact takeGroups_eq_nil _ (Or.inr ⟨c2, r2, rfl, digit_ne_dot hc2⟩)
      · exact takeGroups_eq_nil _ (Or.inr ⟨',', x :: y :: (c2 :: r2), by simp, by decide⟩)
    have hTG := takeGroups_of_groups hgs (dec ++ (c2 :: r2)) hdecgood
    have hgcons : ∃ ga gb gc gs', gs = '.' :: ga :: gb :: gc :: gs' ∧
        ga.isDigit = true ∧ gb.isDigit = true ∧ gc.isDigit = true := by
      cases hgs with
      | nil => exact absurd rfl hgsne
      | cons a b c rest ha hb hc h => exact ⟨a, b, c, rest, rfl, ha, hb, hc⟩
    obtain ⟨ga, gb, gc, gs', hgseq, hga, hgb, hgc⟩ := hgcons
    subst hgseq
    have harr : (lead ++ ('.' :: ga :: gb :: gc :: gs') ++ dec) ++ (c2 :: r2) =
        lead ++ ('.' :: ga :: gb :: gc :: (gs' ++ (dec ++ (c2 :: r2)))) := by
      simp [List.append_assoc]
    rw [harr]
    unfold matchNumAt
    rw [takeDigits_append lead ('.' :: ga :: gb :: gc :: (gs' ++ (dec ++ (c2 :: r2))))
      hdig (show ('.').isDigit = false from by decide)]
    dsimp only
    rw [if_neg (by simpa using hne), if_pos hlen]
    have hTG' : takeGroups ('.' :: ga :: gb :: gc :: (gs' ++ (dec ++ (c2 :: r2)))) =
        ('.' :: ga :: gb :: gc :: gs', dec ++ (c2 :: r2)) := by
      simpa [List.cons_append] using hTG
    rw [hTG']
    dsimp only
    rcases hdec with rfl | ⟨x, y, rfl, hx, hy⟩
    · -- no decimal remainder: the optional `,dd` does not fire on a digit
      rw [List.nil_append]
      split
      · rename_i tok x y r heq
        rw [Prod.mk.injEq] at heq
        obtain ⟨-, heq2⟩ := heq
        injection heq2 with hcomma _
        exact absurd hcomma (digit_ne_comma hc2)
      · rename_i tok r heq
        rw [Prod.mk.injEq] at heq
        obtain ⟨htok, hr⟩ := heq
        rw [← htok, ← hr]
        simp [List.append_assoc]
    · -- `,dd` remainder: it is consumed as part of the first token
      show (match (lead ++ '.' :: ga :: gb :: gc :: gs',
          ',' :: x :: y :: (c2 :: r2)) with
        | (tok, ',' :: a :: b :: r) =>
          if a.isDigit && b.isDigit then some (tok ++ [',', a, b], r)
          else some (tok, ',' :: a :: b :: r)
        | (tok, r) => some (tok, r)) = _
      rw [show (match (lead ++ '.' :: ga :: gb :: gc :: gs',
          ',' :: x :: y :: (c2 :: r2)) with
        | (tok, ',' :: a :: b :: r) =>
          if a.isDigit && b.isDigit then some (tok ++ [',', a, b], r)
          else some (tok, ',' :: a :: b :: r)
        | (tok, r) => some (tok, r)) =
        (if x.isDigit && y.isDigit then
          some ((lead ++ '.' :: ga :: gb :: gc :: gs') ++ [',', x, y], c2 :: r2)
         else some (lead ++ '.' :: ga :: gb :: gc :: gs',
           ',' :: x :: y :: (c2 :: r2))) from rfl]
      rw [if_pos (by simp [hx, hy])]
  · -- plain digit run with `,dd` remainder
    have harr : (ds ++ [',', a, b]) ++ (c2 :: r2) =
        ds ++ (',' :: a :: b :: (c2 :: r2)) := by
      simp [List.append_assoc]
    rw [harr]
    unfold matchNumAt
    rw [takeDigits_append ds (',' :: a :: b :: (c2 :: r2)) hdig
      (show (',').isDigit = false from by decide)]
    dsimp only
    rw [if_neg (by simpa using hne)]
    have hTG : takeGroups (',' :: a :: b :: (c2 :: r2)) =
        ([], ',' :: a :: b :: (c2 :: r2)) :=
      takeGroups_eq_nil _ (Or.inr ⟨',', a :: b :: (c2 :: r2), rfl, by decide⟩)
    by_cases hlen : ds.length ≤ 3
    · rw [if_pos hlen, hTG]
      dsimp only
      rw [show (match (ds, ',' :: a :: b :: (c2 :: r2)) with
        | (tok, ',' :: a :: b :: r) =>
          if a.isDigit && b.isDigit then some (tok ++ [',', a, b], r)
          else some (tok, ',' :: a :: b :: r)
        | (tok, r) => some (tok, r)) =
        (if a.isDigit && b.isDigit then some (ds ++ [',', a, b], c2 :: r2)
         else some (ds, ',' :: a :: b :: (c2 :: r2))) from rfl]
      rw [if_pos (by simp [ha, hb])]
    · rw [if_neg hlen]
      rw [show (match (ds, ',' :: a :: b :: (c2 :: r2)) with
        | (tok, ',' :: a :: b :: r) =>
          if a.isDigit && b.isDigit then some (tok ++ [',', a, b], r)
          else some (tok, ',' :: a :: b :: r)
        | (tok, r) => some (tok, r)) =
        (if a.isDigit && b.isDigit then some (ds ++ [',', a, b], c2 :: r2)
         else some (ds, ',' :: a :: b :: (c2 :: r2))) from rfl]
      rw [if_pos (by simp [ha, hb])]

/-- Evaluation of the separator-and-tail capture on a space followed by a
digit-headed run: the greedy tail is the run up to the first non-tail-class
character. -/
theorem sepThenTail_eval (hc1 : Char) (hrest1 n2 : List Char)
    (hd : hc1.isDigit = true)
    (hall : ∀ c ∈ hrest1, tailClass c = true) :
    sepThenTail (' ' :: ((hc1 :: hrest1) ++ n2)) =
      some (hc1 :: (hrest1 ++ n2.takeWhile tailClass)) := by
  have e1 : (' ' :: ((hc1 :: hrest1) ++ n2)).dropWhile isSpacePy =
      hc1 :: (hrest1 ++ n2) := by
    rw [List.dropWhile_cons, if_pos (show isSpacePy ' ' = true from by decide),
      List.cons_append, List.dropWhile_cons, if_neg (by simp [digit_not_ws hd])]
  have e2 : (hc1 :: (hrest1 ++ n2)).dropWhile (fun c => c == ':' || c == '.') =
      hc1 :: (hrest1 ++ n2) := by
    rw [List.dropWhile_cons, if_neg (by simp [digit_not_sep hd])]
  have e3 : (hc1 :: (hrest1 ++ n2)).dropWhile isSpacePy = hc1 :: (hrest1 ++ n2) := by
    rw [List.dropWhile_cons, if_neg (by simp [digit_not_ws hd])]
  unfold sepThenTail
  dsimp only
  rw [e1, e2, e3]
  show (if hc1.isDigit then some (hc1 :: (hrest1 ++ n2).takeWhile tailClass)
        else none) = _
  rw [if_pos hd, takeWhile_append_all tailClass n2 hrest1 hall]

/-- The label-anchored kWh search succeeds at position zero when the text is
the label followed by matching separator-and-tail material. -/
theorem searchLabelNum_prefix (label rest tail : List Char)
    (hsep : sepThenTail rest = some tail) :
    searchLabelNum label (label ++ rest) = some tail := by
  rcases label with _ | ⟨l0, ls⟩
  · rcases rest with _ | ⟨c, rest'⟩
    · exact absurd hsep (by rw [show sepThenTail [] = none from rfl]; simp)
    · show (match caselessStripT [] none (c :: rest') with
        | some (_, r) =>
          match sepThenTail r with
          | some tail => some tail
          | none => searchLabelNum [] rest'
        | none => searchLabelNum [] rest') = some tail
      rw [show caselessStripT [] none (c :: rest') = some (none, c :: rest') from rfl]
      dsimp only
      rw [hsep]
  · show (match caselessStripT (l0 :: ls) none (l0 :: (ls ++ rest)) with
      | some (_, r) =>
        match sepThenTail r with
        | some tail => some tail
        | none => searchLabelNum (l0 :: ls) (ls ++ rest)
      | none => searchLabelNum (l0 :: ls) (ls ++ rest)) = some tail
    have hcs : caselessStripT (l0 :: ls) none (l0 :: (ls ++ rest)) =
        some (lastOr none (l0 :: ls), rest) := caselessStripT_self (l0 :: ls) none rest
    rw [hcs]
    dsimp only
    rw [hsep]

/-- **C2 amended**: when the label is followed by a thousands-grouped (or
decimal-comma-carrying) first number and a second number abuts it with no
separator, the kWh recognizer reads only the first number: the leftmost
`RE_NUM_BR` token of the concatenation is exactly the first number, and the
extractor returns its normalization. -/
theorem C2_kwh_first_token (label full_text : String) (n1 n2 : List Char)
    (hfull : full_text.data = label.data ++ ' ' :: (n1 ++ n2))
    (h1 : GroupedNum n1 ∨ PlainCommaNum n1)
    (h2 : ∃ c r, n2 = c :: r ∧ c.isDigit = true) :
    matchNumAt (n1 ++ n2) = some (n1, n2) ∧
    extract_kwh_after_label full_text label = normalize_kwh_list n1 := by
  refine ⟨matchNumAt_first n1 n2 h1 h2, ?_⟩
  obtain ⟨hshape, hmem⟩ := numShape_facts h1
  obtain ⟨hc1, hrest1, hn1eq, hd1⟩ := hshape
  obtain ⟨c2, r2, hn2eq, hc2⟩ := h2
  have hallrest : ∀ c ∈ hrest1, tailClass c = true := by
    intro c hcmem
    have hc' : c ∈ n1 := by rw [hn1eq]; exact List.mem_cons_of_mem hc1 hcmem
    rcases hmem c hc' with h | h | h
    · simp [tailClass, h]
    · simp [tailClass, h]
    · simp [tailClass, h]
  have hsep : sepThenTail (' ' :: (n1 ++ n2)) =
      some (hc1 :: (hrest1 ++ n2.takeWhile tailClass)) := by
    rw [hn1eq]
    exact sepThenTail_eval hc1 hrest1 n2 hd1 hallrest
  have hsearch : searchLabelNum label.data full_text.data =
      some (hc1 :: (hrest1 ++ n2.takeWhile tailClass)) := by
    rw [hfull]
    exact searchLabelNum_prefix label.data (' ' :: (n1 ++ n2)) _ hsep
  unfold extract_kwh_after_label
  rw [hsearch]
  dsimp only
  have hW : n2.takeWhile tailClass = c2 :: r2.takeWhile tailClass := by
    rw [hn2eq, List.takeWhile_cons, if_pos (by simp [tailClass, hc2])]
  have hfilter : (hc1 :: (hrest1 ++ n2.takeWhile tailClass)).filter (fun c => c ≠ ' ') =
      n1 ++ (c2 :: (r2.takeWhile tailClass).filter (fun c => c ≠ ' ')) := by
    have hn1nospace : ∀ c ∈ n1, (decide (c ≠ ' ')) = true := by
      intro c hcm
      rcases hmem c hcm with h | h | h
      · simp [digit_ne_space h]
      · subst h; decide
      · subst h; decide
    rw [show (hc1 :: (hrest1 ++ n2.takeWhile tailClass)) =
        n1 ++ n2.takeWhile tailClass from by rw [hn1eq, List.cons_append]]
    rw [List.filter_append]
    rw [List.filter_eq_self.mpr hn1nospace]
    rw [hW, List.filter_cons, if_pos (by simp [digit_ne_space hc2])]
  rw [hfilter]
  have hfirst : firstNumTokenFrom
      (n1 ++ (c2 :: (r2.takeWhile tailClass).filter (fun c => c ≠ ' '))) = some n1 := by
    have hmatch := matchNumAt_first n1
      (c2 :: (r2.takeWhile tailClass).filter (fun c => c ≠ ' ')) h1
      ⟨c2, (r2.takeWhile tailClass).filter (fun c => c ≠ ' '), rfl, hc2⟩
    rw [hn1eq] at hmatch ⊢
    rw [List.cons_append] at hmatch ⊢
    unfold firstNumTokenFrom
    rw [hmatch]
  rw [hfirst]

/-- **C2 counterexample**: with the label followed by the two plain numbers
`100` and `200` abutting with no separator, the recognizer returns the
concatenated value 100200, not the first number 100 — so the claim in its
full generality fails. -/
theorem C2_counterexample :
    extract_kwh_after_label "INJETADO 100200" "INJETADO" = some 100200 ∧
    normalize_kwh "100" = some 100 ∧ (100200 : Int) ≠ 100 := by
  refine ⟨by decide, by decide, by decide⟩

/-- **C2 witness**: for the grouped pair `5.920,00` and `16.774` abutting
after the label, the recognizer returns only the first token's value. -/
theorem C2_kwh_first_token_witness :
    matchNumAt ("5.920,00".data ++ "16.774".data) =
      some ("5.920,00".data, "16.774".data) ∧
    extract_kwh_after_label "INJETADO 5.920,0016.774" "INJETADO" =
      normalize_kwh_list "5.920,00".data := by
  refine C2_kwh_first_token "INJETADO" "INJETADO 5.920,0016.774"
    "5.920,00".data "16.774".data (by decide) ?_ ?_
  · left
    refine ⟨['5'], ['.', '9', '2', '0'], [',', '0', '0'], by decide, by decide, ?_, by decide,
      by decide, ?_, Or.inr ⟨'0', '0', by decide, by decide, by decide⟩⟩
    · intro c hc
      rcases hc with _ | ⟨_, hc⟩
      · decide
      · exact absurd hc (List.not_mem_nil c)
    · exact Groups.cons '9' '2' '0' [] (by decide) (by decide) (by decide) Groups.nil
  · exact ⟨'1', ['6', '.', '7', '7', '4'], by decide, by decide⟩

/-! ### Due-date fallback (C8) -/

/-- `lastOr` over an appended list. -/
theorem lastOr_append (p : Option Char) :
    ∀ x y : List Char, lastOr p (x ++ y) = lastOr (lastOr p x) y
  | [], _ => rfl
  | c :: x, y => lastOr_append (some c) x y

/-- `lastOr` of a non-empty list ignores the initial value. -/
theorem lastOr_ne_nil (p q : Option Char) :
    ∀ x : List Char, x ≠ [] → lastOr p x = lastOr q x
  | [], h => absurd rfl h
  | c :: x, _ => by
    show lastOr (some c) x = lastOr (some c) x
    rfl

/-- A date match somewhere in the list makes `findDate` succeed. -/
theorem findDate_isSome_of (prev : Option Char) (cs : List Char) :
    ∀ a b : List Char, cs = a ++ b →
      (∃ d r, dateAt (lastOr prev a) b = some (d, r)) → (findDate prev cs).isSome := by
  induction cs generalizing prev with
  | nil =>
    intro a b heq hd
    obtain ⟨d, r, hd⟩ := hd
    rcases List.append_eq_nil.mp heq.symm with ⟨rfl, rfl⟩
    exact absurd hd (by rw [show dateAt (lastOr prev []) [] = none from rfl]; simp)
  | cons c rest ih =>
    intro a b heq hd
    obtain ⟨d, r, hd⟩ := hd
    show (match dateAt prev (c :: rest) with
      | some (d, _) => some d
      | none => findDate (some c) rest).isSome
    rcases hda : dateAt prev (c :: rest) with _ | ⟨d0, r0⟩
    · rcases a with _ | ⟨a0, a'⟩
      · exfalso
        rw [List.nil_append] at heq
        subst heq
        rw [show lastOr prev ([] : List Char) = prev from rfl, hda] at hd
        exact Option.noConfusion hd
      · rw [List.cons_append] at heq
        injection heq with h1 h2
        subst h1
        exact ih (some c) a' b h2 ⟨d, r, hd⟩
    · rfl

/-- A successful `findDate` comes from a date match at some split. -/
theorem findDate_some_decomp (prev : Option Char) (cs : List Char) :
    ∀ d, findDate prev cs = some d →
      ∃ a b r, cs = a ++ b ∧ dateAt (lastOr prev a) b = some (d, r) := by
  induction cs generalizing prev with
  | nil => intro d h; exact Option.noConfusion h
  | cons c rest ih =>
    intro d h
    rw [show findDate prev (c :: rest) =
      (match dateAt prev (c :: rest) with
        | some (d, _) => some d
        | none => findDate (some c) rest) from rfl] at h
    rcases hda : dateAt prev (c :: rest) with _ | ⟨d0, r0⟩
    · rw [hda] at h
      obtain ⟨a', b', r', heq, hd'⟩ := ih (some c) d h
      exact ⟨c :: a', b', r', by rw [heq, List.cons_append],
        by rw [show lastOr prev (c :: a') = lastOr (some c) a' from rfl]; exact hd'⟩
    · rw [hda] at h
      have hd0 : d0 = d := by
        have := Option.some.inj h
        exact this
      subst hd0
      exact ⟨[], c :: rest, r0, rfl, hda⟩

/-- A successful same-line scan comes from a date match at some split. -/
theorem scanDateSameLine_some_decomp (prev : Option Char) (cs : List Char) :
    ∀ d, scanDateSameLine prev cs = some d →
      ∃ a b r, cs = a ++ b ∧ dateAt (lastOr prev a) b = some (d, r) := by
  induction cs generalizing prev with
  | nil => intro d h; exact Option.noConfusion h
  | cons c rest ih =>
    intro d h
    rw [show scanDateSameLine prev (c :: rest) =
      (match dateAt prev (c :: rest) with
        | some (d, _) => some d
        | none => if c == '\n' then none else scanDateSameLine (some c) rest) from rfl] at h
    rcases hda : dateAt prev (c :: rest) with _ | ⟨d0, r0⟩
    · rw [hda] at h
      rcases hnl : (c == '\n') with _ | _
      · rw [hnl] at h
        rw [if_neg (by simp)] at h
        obtain ⟨a', b', r', heq, hd'⟩ := ih (some c) d h
        exact ⟨c :: a', b', r', by rw [heq, List.cons_append],
          by rw [show lastOr prev (c :: a') = lastOr (some c) a' from rfl]; exact hd'⟩
      · rw [hnl] at h
        rw [if_pos rfl] at h
        exact Option.noConfusion h
    · rw [hda] at h
      have hd0 : d0 = d := Option.some.inj h
      subst hd0
      exact ⟨[], c :: rest, r0, rfl, hda⟩

/-- Decomposition of a successful caseless literal match: the consumed prefix
has the pattern's length and its last character is the reported one. -/
theorem caselessStripT_decomp :
    ∀ (pat : List Char) (last0 : Option Char) (cs : List Char) (last : Option Char)
      (r : List Char), caselessStripT pat last0 cs = some (last, r) →
      ∃ m, cs = m ++ r ∧ lastOr last0 m = last ∧ m.length = pat.length
  | [], last0, cs, last, r => by
    intro h
    obtain ⟨h1, h2⟩ := Prod.mk.injEq _ _ _ _ ▸ Option.some.inj h
    exact ⟨[], by rw [List.nil_append, h2], by rw [← h1]; rfl, rfl⟩
  | p :: ps, last0, [], last, r => by
    intro h
    exact Option.noConfusion h
  | p :: ps, last0, c :: cs, last, r => by
    intro h
    rw [show caselessStripT (p :: ps) last0 (c :: cs) =
      (if toUpperPy c == toUpperPy p then caselessStripT ps (some c) cs else none)
      from rfl] at h
    rcases hu : (toUpperPy c == toUpperPy p) with _ | _
    · rw [hu] at h
      rw [if_neg (by simp)] at h
      exact Option.noConfusion h
    · rw [hu] at h
      rw [if_pos rfl] at h
      obtain ⟨m', heq, hlast, hlen⟩ := caselessStripT_decomp ps (some c) cs last r h
      exact ⟨c :: m', by rw [heq, List.cons_append],
        by rw [show lastOr last0 (c :: m') = lastOr (some c) m' from rfl]; exact hlast,
        by simp [hlen]⟩

/-- A successful label-anchored date search exhibits a date occurrence (for a
non-empty label). -/
theorem searchLabelDate_some_decomp (label : List Char) (hlab : label ≠ []) (cs : List Char) :
    ∀ d, searchLabelDate label cs = some d →
      ∃ a b r, cs = a ++ b ∧ a ≠ [] ∧ dateAt (lastOr none a) b = some (d, r) := by
  induction cs with
  | nil => intro d h; exact Option.noConfusion h
  | cons c rest ih =>
    intro d h
    rw [show searchLabelDate label (c :: rest) =
      (match caselessStripT label none (c :: rest) with
        | some (last, r) =>
          match scanDateSameLine last r with
          | some d => some d
          | none => searchLabelDate label rest
        | none => searchLabelDate label rest) from rfl] at h
    rcases hcs : caselessStripT label none (c :: rest) with _ | ⟨last, r⟩
    · rw [hcs] at h
      dsimp only at h
      obtain ⟨a', b', r', heq, hane, hd'⟩ := ih d h
      refine ⟨c :: a', b', r', by rw [heq, List.cons_append], by simp, ?_⟩
      rw [show lastOr none (c :: a') = lastOr (some c) a' from rfl]
      rw [lastOr_ne_nil (some c) none a' hane]
      exact hd'
    · rw [hcs] at h
      dsimp only at h
      rcases hscan : scanDateSameLine last r with _ | d0
      · rw [hscan] at h
        obtain ⟨a', b', r', heq, hane, hd'⟩ := ih d h
        refine ⟨c :: a', b', r', by rw [heq, List.cons_append], by simp, ?_⟩
        rw [show lastOr none (c :: a') = lastOr (some c) a' from rfl]
        rw [lastOr_ne_nil (some c) none a' hane]
        exact hd'
      · rw [hscan] at h
        have hd0 : d0 = d := Option.some.inj h
        obtain ⟨m, hmeq, hmlast, hmlen⟩ := caselessStripT_decomp label none (c :: rest)
          last r hcs
        obtain ⟨a', b', r', heq', hd'⟩ := scanDateSameLine_some_decomp last r d0 hscan
        rw [hd0] at hd'
        refine ⟨m ++ a', b', r', ?_, ?_, ?_⟩
        · rw [hmeq, heq', List.append_assoc]
        · intro hmn
          rcases List.append_eq_nil.mp hmn with ⟨hm0, -⟩
          rw [hm0] at hmlen
          exact hlab (List.length_eq_zero.mp hmlen.symm)
        · rw [lastOr_append, hmlast]
          exact hd'

/-- **C8**: if the `VENCIMENTO`-anchored search fails, the due-date
recognizer returns the first `DD/MM/YYYY` date anywhere in the text, and
consequently the field is absent exactly when the text contains no such
date at all. -/
theorem C8_vencimento_fallback (t : String) :
    (extract_first_date_after "VENCIMENTO" t = none →
      extract_vencimento t = (findDate none t.data).map (fun d => (⟨d⟩ : String))) ∧
    (extract_vencimento t = none ↔ ¬ DateOcc t) := by
  constructor
  · intro h
    unfold extract_vencimento
    rw [h]
  · constructor
    · intro h hocc
      obtain ⟨a, b, d, r, heq, hdate⟩ := hocc
      unfold extract_vencimento at h
      rcases hl : extract_first_date_after "VENCIMENTO" t with _ | v
      · rw [hl] at h
        have hfd : (findDate none t.data).map (fun d => (⟨d⟩ : String)) = none := h
        have hsome := findDate_isSome_of none t.data a b heq ⟨d, r, hdate⟩
        rcases hfde : findDate none t.data with _ | d0
        · rw [hfde] at hsome
          exact Bool.noConfusion hsome
        · rw [hfde] at hfd
          exact Option.noConfusion hfd
      · rw [hl] at h
        exact Option.noConfusion h
    · intro h
      have hlab : extract_first_date_after "VENCIMENTO" t = none := by
        rcases hl : extract_first_date_after "VENCIMENTO" t with _ | v
        · rfl
        · exfalso
          unfold extract_first_date_after at hl
          rcases hsl : searchLabelDate "VENCIMENTO".data t.data with _ | d
          · rw [hsl] at hl
            exact Option.noConfusion hl
          · obtain ⟨a, b, r, heq, hane, hdate⟩ :=
              searchLabelDate_some_decomp "VENCIMENTO".data (by decide) t.data d hsl
            exact h ⟨a, b, d, r, heq, hdate⟩
      refine (C8_vencimento_fallback_aux t hlab).trans ?_
      rcases hfde : findDate none t.data with _ | d0
      · rfl
      · exfalso
        obtain ⟨a, b, r, heq, hdate⟩ := findDate_some_decomp none t.data d0 hfde
        exact h ⟨a, b, d0, r, heq, hdate⟩
where
  C8_vencimento_fallback_aux (t : String)
      (h : extract_first_date_after "VENCIMENTO" t = none) :
      extract_vencimento t = (findDate none t.data).map (fun d => (⟨d⟩ : String)) := by
    unfold extract_vencimento
    rw [h]

/-- **C8 witness**: on a dateless document the label search fails and the
recognizer equals the blob-wide first-date search (both absent). -/
theorem C8_vencimento_fallback_witness :
    extract_vencimento "abc" =
      (findDate none ("abc" : String).data).map (fun d => (⟨d⟩ : String)) :=
  (C8_vencimento_fallback "abc").1 (by decide)

/-! ### Reading-date block fallback (C5) -/

/-- A block match somewhere in the list makes `searchBloco` succeed. -/
theorem searchBloco_isSome_of (prev : Option Char) (cs : List Char) :
    ∀ a b : List Char, cs = a ++ b →
      (∃ p, matchBlocoAt (lastOr prev a) b = some p) → (searchBloco prev cs).isSome := by
  induction cs generalizing prev with
  | nil =>
    intro a b heq hp
    obtain ⟨p, hp⟩ := hp
    rcases List.append_eq_nil.mp heq.symm with ⟨rfl, rfl⟩
    rw [show lastOr prev ([] : List Char) = prev from rfl] at hp
    rw [show matchBlocoAt prev ([] : List Char) = none from by
      unfold matchBlocoAt; rw [show dateAt prev ([] : List Char) = none from rfl]] at hp
    exact Option.noConfusion hp
  | cons c rest ih =>
    intro a b heq hp
    obtain ⟨p, hp⟩ := hp
    show (match matchBlocoAt prev (c :: rest) with
      | some p => some p
      | none => searchBloco (some c) rest).isSome
    rcases hma : matchBlocoAt prev (c :: rest) with _ | p0
    · rcases a with _ | ⟨a0, a'⟩
      · exfalso
        rw [List.nil_append] at heq
        subst heq
        rw [show lastOr prev ([] : List Char) = prev from rfl, hma] at hp
        exact Option.noConfusion hp
      · rw [List.cons_append] at heq
        injection heq with h1 h2
        subst h1
        exact ih (some c) a' b h2 ⟨p, hp⟩
    · rfl

/-- A successful `searchBloco` comes from a block match at some split. -/
theorem searchBloco_some_decomp (prev : Option Char) (cs : List Char) :
    ∀ p, searchBloco prev cs = some p →
      ∃ a b, cs = a ++ b ∧ matchBlocoAt (lastOr prev a) b = some p := by
  induction cs generalizing prev with
  | nil => intro p h; exact Option.noConfusion h
  | cons c rest ih =>
    intro p h
    rw [show searchBloco prev (c :: rest) =
      (match matchBlocoAt prev (c :: rest) with
        | some p => some p
        | none => searchBloco (some c) rest) from rfl] at h
    rcases hma : matchBlocoAt prev (c :: rest) with _ | p0
    · rw [hma] at h
      obtain ⟨a', b', heq, hm'⟩ := ih (some c) p h
      exact ⟨c :: a', b', by rw [heq, List.cons_append],
        by rw [show lastOr prev (c :: a') = lastOr (some c) a' from rfl]; exact hm'⟩
    · rw [hma] at h
      have hp0 : p0 = p := Option.some.inj h
      subst hp0
      exact ⟨[], c :: rest, rfl, hma⟩

/-- **C5**: whenever the text contains the literal block pattern
"date whitespace date whitespace integer whitespace date", the fallback
returns present reading dates, and the returned pair is the first and
second dates of an occurrence of the block pattern; in particular on the
unlabeled block `"05/11/2025 08/12/2025 33 05/12/2025"` the orchestrator
resolves prior reading `05/11/2025` and current reading `08/12/2025` via
this fallback. -/
theorem C5_leituras_bloco :
    (∀ (t : String) (a b : List Char) (p : List Char × List Char),
      t.data = a ++ b → matchBlocoAt (lastOr none a) b = some p →
      (extract_leituras_por_bloco t).1.isSome ∧ (extract_leituras_por_bloco t).2.isSome ∧
      ∃ d1 d2, extract_leituras_por_bloco t = (some ⟨d1⟩, some ⟨d2⟩) ∧ BlocoOcc t d1 d2) ∧
    ((extract_fields "05/11/2025 08/12/2025 33 05/12/2025").leitura_anterior =
        some "05/11/2025" ∧
     (extract_fields "05/11/2025 08/12/2025 33 05/12/2025").leitura_atual =
        some "08/12/2025") := by
  constructor
  · intro t a b p heq hm
    have hsome := searchBloco_isSome_of none t.data a b heq ⟨p, hm⟩
    rcases hsb : searchBloco none t.data with _ | ⟨d1, d2⟩
    · rw [hsb] at hsome
      exact Bool.noConfusion hsome
    · obtain ⟨a', b', heq', hm'⟩ := searchBloco_some_decomp none t.data (d1, d2) hsb
      have hres : extract_leituras_por_bloco t = (some ⟨d1⟩, some ⟨d2⟩) := by
        unfold extract_leituras_por_bloco
        rw [hsb]
      rw [hres]
      exact ⟨rfl, rfl, d1, d2, rfl, a', b', heq', hm'⟩
  · constructor
    · decide
    · decide

/-- **C5 witness**: the universal part applied to the concrete unlabeled
block, with the decomposition at position zero. -/
theorem C5_leituras_bloco_witness :
    (extract_leituras_por_bloco "05/11/2025 08/12/2025 33 05/12/2025").1.isSome ∧
    (extract_leituras_por_bloco "05/11/2025 08/12/2025 33 05/12/2025").2.isSome := by
  have h := C5_leituras_bloco.1 "05/11/2025 08/12/2025 33 05/12/2025" []
    ("05/11/2025 08/12/2025 33 05/12/2025" : String).data
    ("05/11/2025".data, "08/12/2025".data) rfl (by decide)
  exact ⟨h.1, h.2.1⟩

end FaturaExtractor
